import Mathlib

/-!
Verification development for the MusicMainRESTYT repository.

The repository has two components:

* `notifier.py` — a booking reconciler.  Each pass over the bookings table
  performs, in order: (1) conflict resolution over all bookings with
  `confirmed >= 0`, scanned in `(date, time_from)` order, claiming
  `(date, hour)` cells in a dictionary and cancelling any booking that hits
  an occupied cell; (2) reminder evaluation per booking via an `if/elif`
  chain (24h reminder, 1h confirmation prompt, auto-cancel at start-10min),
  each branch gated on `last_tick < target <= now`; (3) a completion sweep
  turning `confirmed = 1` bookings whose end instant has passed into
  `confirmed = 3` with an admin notification.

* `handlers/pitching.py` — a seven step form wizard whose step handler
  validates link fields against a Yandex-Disk regex and accepts "none"
  sentinel tokens at the clip-link step.

Time is modelled in minutes on an absolute axis (the source works in a
fixed offset timezone with no DST, so `datetime` arithmetic is linear).
Calendar dates are modelled as year/month/day triples; `daysFromCivil`
is the standard proleptic-Gregorian day-number computation that
`datetime.strptime`/`timedelta` arithmetic realises.
-/

/-- A calendar date as parsed by `datetime.strptime(date_str, "%Y-%m-%d")`.
Two stored date strings are equal iff their `(y, m, d)` triples are equal,
and the SQL `ORDER BY date` on the `%Y-%m-%d` format is the lexicographic
order on `(y, m, d)`. -/
structure Date where
  y : Int
  m : Int
  d : Int
deriving DecidableEq

/-- Number of days from the epoch 1970-01-01 to the given civil date
(proleptic Gregorian), the day-number arithmetic performed by Python's
`datetime`.  All divisions are applied to non-negative quantities for the
CE dates produced by `strptime`. -/
def daysFromCivil (dt : Date) : Int :=
  let y := if dt.m ≤ 2 then dt.y - 1 else dt.y
  let era := y / 400
  let yoe := y - era * 400
  let mp := (dt.m + 9) % 12
  let doy := (153 * mp + 2) / 5 + dt.d - 1
  let doe := yoe * 365 + yoe / 4 - yoe / 100 + doy
  era * 146097 + doe - 719468

/-- The absolute instant (in minutes since epoch) of `date + hour` hours,
i.e. `base_date + timedelta(hours=h)` in the source; `hour` may exceed 24,
rolling into the following calendar day(s). -/
def civilMinutes (dt : Date) (hour : Int) : Int :=
  daysFromCivil dt * 1440 + hour * 60

/-- A row of the `bookings` table, with the columns used by the
reconciler.  `confirmed` is `-1` cancelled, `0` pending, `1` confirmed,
`3` passed.  `notified24h`/`notified1h` are the one-shot reminder flags. -/
structure Booking where
  id : Nat
  userId : Nat
  date : Date
  timeFrom : Int
  timeTo : Int
  confirmed : Int
  notified24h : Bool
  notified1h : Bool
deriving DecidableEq

/-- `start_dt = base_date + timedelta(hours=h_from)` in minutes. -/
def startInstant (b : Booking) : Int := civilMinutes b.date b.timeFrom

/-- `end_dt = base_date + timedelta(hours=h_to)` in minutes. -/
def endInstant (b : Booking) : Int := civilMinutes b.date b.timeTo

/-- Target instant `t_24h = start_dt - timedelta(hours=24)`. -/
def t24 (b : Booking) : Int := startInstant b - 24 * 60

/-- Target instant `t_1h = start_dt - timedelta(hours=1)`. -/
def t1h (b : Booking) : Int := startInstant b - 60

/-- Target instant `t_autocancel = start_dt - timedelta(minutes=10)`. -/
def tAuto (b : Booking) : Int := startInstant b - 10

/-- An outbound notification attempt produced during a pass, tagged with
the booking id it concerns. -/
inductive Event
  | conflictCancel (bookingId : Nat)
  | remind24 (bookingId : Nat)
  | remind1 (bookingId : Nat)
  | autoCancel (bookingId : Nat)
  | passedAdmin (bookingId : Nat)
deriving DecidableEq

/-- The booking id an event concerns. -/
def Event.bid : Event → Nat
  | conflictCancel i => i
  | remind24 i => i
  | remind1 i => i
  | autoCancel i => i
  | passedAdmin i => i

/-- The list `[f, f+1, ..., f+n-1]`. -/
def hourListAux (f : Int) : Nat → List Int
  | 0 => []
  | n + 1 => f :: hourListAux (f + 1) n

/-- The hours `range(h_from, h_to)` occupied by a booking, in increasing
order as Python's `range` produces them. -/
def hourList (f t : Int) : List Int := hourListAux f (t - f).toNat

/-- The `booked_map : dict[(date_str, hour), booking_id]`, as an
association list; entries are only ever added under keys that are absent,
so lookups are unambiguous. -/
abbrev CellMap := List ((Date × Int) × Nat)

/-- Dictionary lookup in the `booked_map`. -/
def cellLookup (m : CellMap) (k : Date × Int) : Option Nat :=
  match m with
  | [] => none
  | (k', v) :: rest => if k' = k then some v else cellLookup rest k

/-- The inner `for h in range(h_from, h_to)` loop of the conflict phase:
walk the booking's cells in increasing order; on the first occupied cell
stop with a conflict (the booking is cancelled and its remaining cells are
not claimed), otherwise claim the cell for this booking id. -/
def claimCells (d : Date) (bid : Nat) : CellMap → List Int → CellMap × Bool
  | m, [] => (m, false)
  | m, h :: hs =>
    if (cellLookup m (d, h)).isSome then (m, true)
    else claimCells d bid (((d, h), bid) :: m) hs

/-- The outer conflict-resolution loop: process bookings in scan order,
threading the `booked_map`; returns the final map and the ids of the
bookings that were cancelled (each such booking also gets `confirmed = -1`
and a cancellation message, modelled in `tickPass`). -/
def conflictScan : CellMap → List Booking → CellMap × List Nat
  | m, [] => (m, [])
  | m, b :: rest =>
    let c := claimCells b.date b.id m (hourList b.timeFrom b.timeTo)
    let r := conflictScan c.1 rest
    (r.1, if c.2 then b.id :: r.2 else r.2)

/-- Chronological (= lexicographic string) order on stored dates. -/
def dateLt (a b : Date) : Prop :=
  a.y < b.y ∨ (a.y = b.y ∧ (a.m < b.m ∨ (a.m = b.m ∧ a.d < b.d)))

instance (a b : Date) : Decidable (dateLt a b) := by
  unfold dateLt
  exact inferInstance

/-- The `ORDER BY date, time_from` order of the conflict query. -/
def bookLe (a b : Booking) : Prop :=
  dateLt a.date b.date ∨ (a.date = b.date ∧ a.timeFrom ≤ b.timeFrom)

instance : DecidableRel bookLe := fun a b => by
  unfold bookLe dateLt
  exact inferInstance

instance : IsTotal Booking bookLe := by
  constructor
  intro a b
  unfold bookLe dateLt
  obtain ⟨ya, ma, da⟩ := a.date
  obtain ⟨yb, mb, db⟩ := b.date
  simp only [Date.mk.injEq]
  omega

instance : IsTrans Booking bookLe := by
  constructor
  intro a b c
  unfold bookLe dateLt
  obtain ⟨ya, ma, da⟩ := a.date
  obtain ⟨yb, mb, db⟩ := b.date
  obtain ⟨yc, mc, dc⟩ := c.date
  simp only [Date.mk.injEq]
  omega

/-- The row order produced by `ORDER BY date, time_from` (stable in the
insertion order on ties). -/
def sortBookings (l : List Booking) : List Booking := List.insertionSort bookLe l

/-- The rows returned by `WHERE confirmed >= 0`. -/
def activeBookings (db : List Booking) : List Booking :=
  db.filter fun b => decide (0 ≤ b.confirmed)

/-- The whole conflict phase on a database snapshot: query, sort, scan. -/
def conflictRun (db : List Booking) : CellMap × List Nat :=
  conflictScan [] (sortBookings (activeBookings db))

/-- Ids cancelled by the conflict phase of one pass. -/
def cancelledIds (db : List Booking) : List Nat := (conflictRun db).2

/-- Applying the conflict phase's `UPDATE bookings SET confirmed = -1` to
one row. -/
def confRow (cids : List Nat) (b : Booking) : Booking :=
  if b.id ∈ cids then { b with confirmed := -1 } else b

/-- Precondition of the 24h branch:
`confirmed >= 0 and (not notified_24h) and (last_tick < t_24h <= now)`. -/
def cond24 (T0 T1 : Int) (b : Booking) : Prop :=
  0 ≤ b.confirmed ∧ b.notified24h = false ∧ T0 < t24 b ∧ t24 b ≤ T1

/-- Precondition of the 1h branch:
`confirmed == 0 and (not notified_1h) and (last_tick < t_1h <= now)`. -/
def cond1h (T0 T1 : Int) (b : Booking) : Prop :=
  b.confirmed = 0 ∧ b.notified1h = false ∧ T0 < t1h b ∧ t1h b ≤ T1

/-- Precondition of the auto-cancel branch:
`confirmed == 0 and (last_tick < t_autocancel <= now)`. -/
def condAuto (T0 T1 : Int) (b : Booking) : Prop :=
  b.confirmed = 0 ∧ T0 < tAuto b ∧ tAuto b ≤ T1

instance (T0 T1 : Int) (b : Booking) : Decidable (cond24 T0 T1 b) := by
  unfold cond24
  exact inferInstance

instance (T0 T1 : Int) (b : Booking) : Decidable (cond1h T0 T1 b) := by
  unfold cond1h
  exact inferInstance

instance (T0 T1 : Int) (b : Booking) : Decidable (condAuto T0 T1 b) := by
  unfold condAuto
  exact inferInstance

/-- The `if/elif/elif` reminder chain for one fetched row.  `ok b.id`
tells whether the outbound send for this booking succeeds; in the 24h and
1h branches the flag `UPDATE` runs only after a successful send (a raised
send exception skips it), while the auto-cancel branch updates the row
before sending, so its update is unconditional.  The emitted event records
the send attempt. -/
def reminderStep (T0 T1 : Int) (ok : Nat → Bool) (b : Booking) : Booking × List Event :=
  if cond24 T0 T1 b then
    if ok b.id then ({ b with notified24h := true }, [Event.remind24 b.id])
    else (b, [Event.remind24 b.id])
  else if cond1h T0 T1 b then
    if ok b.id then ({ b with notified1h := true }, [Event.remind1 b.id])
    else (b, [Event.remind1 b.id])
  else if condAuto T0 T1 b then
    ({ b with confirmed := -1 }, [Event.autoCancel b.id])
  else (b, [])

/-- The reminder loop over the fetched rows.  The SQL filter
`WHERE confirmed >= 0` is subsumed by the branch preconditions (every
branch requires `confirmed >= 0` or `confirmed == 0`), so rows failing it
are left unchanged and emit nothing; since `id` is the primary key, the
per-row `UPDATE ... WHERE id = ?` statements amount to updating each row
in place. -/
def reminderPhase (T0 T1 : Int) (ok : Nat → Bool) : List Booking → List Booking × List Event
  | [] => ([], [])
  | b :: rest =>
    let s := reminderStep T0 T1 ok b
    let r := reminderPhase T0 T1 ok rest
    (s.1 :: r.1, s.2 ++ r.2)

/-- The completion sweep for one row: rows with `confirmed == 1` whose
`dt_end <= now` become `confirmed = 3` and the admin is notified once
(the `WHERE confirmed = 1` filter is the `confirmed = 1` conjunct). -/
def sweepStep (now : Int) (b : Booking) : Booking × List Event :=
  if b.confirmed = 1 ∧ endInstant b ≤ now then
    ({ b with confirmed := 3 }, [Event.passedAdmin b.id])
  else (b, [])

/-- The completion-sweep loop over the table. -/
def sweepPhase (now : Int) : List Booking → List Booking × List Event
  | [] => ([], [])
  | b :: rest =>
    let s := sweepStep now b
    let r := sweepPhase now rest
    (s.1 :: r.1, s.2 ++ r.2)

/-- One reconciliation pass of `check_bookings_loop` with
`last_tick = T0` and `now = T1`: conflict phase, then the reminder phase
over the re-queried table, then the completion sweep, with the emitted
notifications in program order. -/
def tickPass (T0 T1 : Int) (ok : Nat → Bool) (db : List Booking) : List Booking × List Event :=
  let cids := cancelledIds db
  let db1 := db.map (confRow cids)
  let rp := reminderPhase T0 T1 ok db1
  let sp := sweepPhase T1 rp.1
  (sp.1, cids.map Event.conflictCancel ++ rp.2 ++ sp.2)

/-- The effect of one full pass on a single row, given the ids cancelled
by the conflict phase. -/
def passRow (cids : List Nat) (T0 T1 : Int) (ok : Nat → Bool) (b : Booking) : Booking :=
  (sweepStep T1 (reminderStep T0 T1 ok (confRow cids b)).1).1

/-- The database after `n` passes of the loop; pass `n` runs with
`last_tick = ticks n` and `now = ticks (n+1)`, mirroring
`last_tick = now` at the end of each iteration. -/
def runDb (ticks : Nat → Int) (oks : Nat → Nat → Bool) (db : List Booking) : Nat → List Booking
  | 0 => db
  | n + 1 => (tickPass (ticks n) (ticks (n + 1)) (oks n) (runDb ticks oks db n)).1

/-- The notifications emitted during pass `n`. -/
def runEvents (ticks : Nat → Int) (oks : Nat → Nat → Bool) (db : List Booking) (n : Nat) : List Event :=
  (tickPass (ticks n) (ticks (n + 1)) (oks n) (runDb ticks oks db n)).2

/-- The state of one tracked row after `n` passes. -/
def rowState (ticks : Nat → Int) (oks : Nat → Nat → Bool) (db : List Booking) (b : Booking) : Nat → Booking
  | 0 => b
  | n + 1 =>
    passRow (cancelledIds (runDb ticks oks db n)) (ticks n) (ticks (n + 1)) (oks n)
      (rowState ticks oks db b n)

/-- Two bookings occupy a common hour (their `range(h_from, h_to)` cell
sets intersect). -/
def hourOverlap (a b : Booking) : Prop :=
  ∃ h : Int, (a.timeFrom ≤ h ∧ h < a.timeTo) ∧ (b.timeFrom ≤ h ∧ h < b.timeTo)

instance (a b : Booking) : Decidable (hourOverlap a b) := by
  refine decidable_of_iff (a.timeFrom < a.timeTo ∧ b.timeFrom < b.timeTo ∧ a.timeFrom < b.timeTo ∧ b.timeFrom < a.timeTo ∧ True) ?_
  unfold hourOverlap
  constructor
  · rintro ⟨h1, h2, h3, h4, -⟩
    refine ⟨max a.timeFrom b.timeFrom, ⟨?_, ?_⟩, ?_, ?_⟩ <;> omega
  · rintro ⟨h, ⟨h1, h2⟩, h3, h4⟩
    refine ⟨by omega, by omega, by omega, by omega, trivial⟩

/-- Invariant of the conflict scan: for every booking still to be
processed, whenever some cell at the booking's date with an hour at or
after its start hour is occupied, the cell at its start hour is occupied
too.  It holds because bookings are scanned in `(date, time_from)` order,
so the occupied cells at each date form a union of intervals all of which
begin no later than any pending booking's start hour. -/
def scanInv (m : CellMap) (bs : List Booking) : Prop :=
  ∀ b ∈ bs, ∀ k : Int, b.timeFrom ≤ k →
    (cellLookup m (b.date, k)).isSome → (cellLookup m (b.date, b.timeFrom)).isSome

/-- Python's default `str.strip()` whitespace test. -/
def isSpaceChar (c : Char) : Bool := c.isWhitespace

/-- `value.strip()` on the character list of a string. -/
def stripChars (cs : List Char) : List Char :=
  ((cs.dropWhile isSpaceChar).reverse.dropWhile isSpaceChar).reverse

/-- `(value or "").strip()`. -/
def pyStrip (s : String) : String := String.mk (stripChars s.data)

/-- Consume an exact prefix of characters, returning the remainder. -/
def eatChars : List Char → List Char → Option (List Char)
  | [], cs => some cs
  | _ :: _, [] => none
  | p :: ps, c :: cs => if c = p then eatChars ps cs else none

/-- One lowercase Latin letter — the `[a-z]` class of the pattern after
the input has been lowercased (the `re.I` flag). -/
def isLowerAlpha (c : Char) : Bool := decide ('a' ≤ c) && decide (c ≤ 'z')

/-- After the first mandatory letter of the TLD: letters until a `/`. -/
def tldSlashAux : List Char → Bool
  | [] => false
  | c :: rest => if c = '/' then true else isLowerAlpha c && tldSlashAux rest

/-- `[a-z]+/` — at least one letter, then a slash (a slash is not a
letter, so greedy matching needs no backtracking). -/
def tldSlash : List Char → Bool
  | [] => false
  | c :: rest => isLowerAlpha c && tldSlashAux rest

/-- The domain alternation `(yadi\.sk|disk\.yandex\.[a-z]+|disk\.yandex\.ru)`
followed by `/`; the third alternative is an instance of the second. -/
def domainMatch (cs : List Char) : Bool :=
  match eatChars ("yadi.sk/").data cs with
  | some _ => true
  | none =>
    match eatChars ("disk.yandex.").data cs with
    | some rest => tldSlash rest
    | none => false

/-- The optional `s` of `https?` (`s` and `:` are distinct, so taking the
`s` when present is the unique way the pattern can match). -/
def optS : List Char → List Char
  | 's' :: r => r
  | r => r

/-- `_is_yandex_disk_link`: strip, then match
`^https?://(yadi\.sk|disk\.yandex\.[a-z]+|disk\.yandex\.ru)/` with
`re.I`, modelled by lowercasing the input first. -/
def is_yandex_disk_link (s : String) : Bool :=
  match eatChars ("http").data ((stripChars s.data).map Char.toLower) with
  | none => false
  | some r =>
    match eatChars ("://").data (optS r) with
    | none => false
    | some rest => domainMatch rest

/-- The wizard's `FIELDS` list, in step order. -/
def FIELDS : List String :=
  ["release_artist", "description", "photos_link", "listen_link", "clip_link", "socials", "extra"]

/-- `answers[key] = value` on the state's answer dictionary. -/
def setAnswer (ans : List (String × String)) (k v : String) : List (String × String) :=
  match ans with
  | [] => [(k, v)]
  | (k', v') :: rest => if k' = k then (k, v) :: rest else (k', v') :: setAnswer rest k v

/-- `FIELDS[step_index]`. -/
def fieldName (i : Nat) : String := FIELDS.getD i ("")

/-- The "no clip" sentinel tokens accepted at step index 4. -/
def noneTokens : List String := ["-", "—", "нет", "Нет", "NONE", "none"]

/-- Number of wizard steps, `len(PITCH_FORM_STEPS)`. -/
def stepCount : Nat := 7

/-- What `_handle_step` does with the collected state. -/
inductive StepOutcome
  | reprompt
  | advance
  | preview
deriving DecidableEq

/-- The wizard's per-conversation state: `step_index` and `answers`. -/
structure WizardState where
  stepIndex : Nat
  answers : List (String × String)
deriving DecidableEq

/-- The tail of `_handle_step` once validation passed: store the answer
under `FIELDS[step_index]`, advance the index, and either show the
preview (after the last step) or prompt the next step. -/
def advanceWith (st : WizardState) (value : String) : WizardState × StepOutcome :=
  let answers := setAnswer st.answers (fieldName st.stepIndex) value
  let idx := st.stepIndex + 1
  if stepCount ≤ idx then ({ stepIndex := idx, answers := answers }, StepOutcome.preview)
  else ({ stepIndex := idx, answers := answers }, StepOutcome.advance)

/-- `_handle_step`: strip the input; steps 2 and 3 (photos_link,
listen_link) re-prompt without touching the state unless the link
matches; step 4 (clip_link) maps sentinel tokens to the empty string and
re-prompts on other non-empty non-matching input; then the answer is
stored and the wizard advances. -/
def handle_step (st : WizardState) (raw : String) : WizardState × StepOutcome :=
  let value := pyStrip raw
  if st.stepIndex = 2 ∧ is_yandex_disk_link value = false then (st, StepOutcome.reprompt)
  else if st.stepIndex = 3 ∧ is_yandex_disk_link value = false then (st, StepOutcome.reprompt)
  else if st.stepIndex = 4 ∧ value ∈ noneTokens then advanceWith st ("")
  else if st.stepIndex = 4 ∧ value ≠ "" ∧ is_yandex_disk_link value = false then (st, StepOutcome.reprompt)
  else advanceWith st value

/-- Sample bookings used by the concrete witnesses: two overlapping
bookings on the same date (the second pending or confirmed), and two
non-overlapping bookings on consecutive dates. -/
def wA : Booking := ⟨1, 10, ⟨2024, 6, 1⟩, 10, 12, 0, false, false⟩

/-- Same date as `wA`, hours 11-13, `confirmed = 1`. -/
def wB1 : Booking := ⟨2, 20, ⟨2024, 6, 1⟩, 11, 13, 1, false, false⟩

/-- Same date as `wA`, hours 11-13, `confirmed = 0`. -/
def wB0 : Booking := ⟨2, 20, ⟨2024, 6, 1⟩, 11, 13, 0, false, false⟩

/-- A booking on 2024-03-05, hours 8-10. -/
def wC : Booking := ⟨1, 10, ⟨2024, 3, 5⟩, 8, 10, 0, false, false⟩

/-- A booking on 2024-03-06, hours 8-10. -/
def wD : Booking := ⟨2, 20, ⟨2024, 3, 6⟩, 8, 10, 0, false, false⟩

/-- An already-cancelled booking (`confirmed = -1`). -/
def wNeg : Booking := ⟨3, 30, ⟨2024, 6, 1⟩, 5, 6, -1, false, false⟩

/-- A pending booking with both one-shot flags already set. -/
def wFlag : Booking := ⟨4, 40, ⟨2024, 6, 1⟩, 10, 12, 0, true, true⟩

/-- A pending booking whose 24h flag is set but whose 1h flag is clear. -/
def w24set : Booking := ⟨5, 50, ⟨2024, 6, 1⟩, 10, 12, 0, true, false⟩

/-- A tick sequence whose first window crosses `wB0`'s 24h target. -/
def ticks24Run : Nat → Int := fun n => t24 wB0 - 1 + n

/-- A tick sequence whose first window crosses `w24set`'s 1h target. -/
def ticks1Run : Nat → Int := fun n => t1h w24set - 1 + n

/-- A send oracle where every send succeeds. -/
def oks24Run : Nat → Nat → Bool := fun _ _ => true

/-! ## Helper lemmas -/

theorem daysFromCivil_succ (y m d : Int) :
    daysFromCivil ⟨y, m, d + 1⟩ = daysFromCivil ⟨y, m, d⟩ + 1 := by
  unfold daysFromCivil
  by_cases h : m ≤ 2 <;> simp only [h, if_true, if_false, ite_true, ite_false] <;> omega

/-! ## Claim theorems -/

/-- C6: the computed start instant is the stored calendar date plus
`time_from` hours and the end instant is the date plus `time_to` hours;
hour values of 24 or more roll into the following calendar day(s); in
particular date 2024-01-01 with `time_from = 26` resolves to
2024-01-02 02:00. -/
theorem C6_start_end_rollover :
    (∀ b : Booking, startInstant b = daysFromCivil b.date * 1440 + b.timeFrom * 60) ∧
    (∀ b : Booking, endInstant b = daysFromCivil b.date * 1440 + b.timeTo * 60) ∧
    (∀ (y m d k : Int), civilMinutes ⟨y, m, d⟩ (k + 24) = civilMinutes ⟨y, m, d + 1⟩ k) ∧
    startInstant
        { id := 1, userId := 1, date := ⟨2024, 1, 1⟩, timeFrom := 26, timeTo := 28,
          confirmed := 0, notified24h := false, notified1h := false } =
      civilMinutes ⟨2024, 1, 2⟩ 2 := by
  refine ⟨fun b => rfl, fun b => rfl, fun y m d k => ?_, by decide⟩
  unfold civilMinutes
  rw [daysFromCivil_succ]
  ring

/-- C8: at the photos_link and listen_link steps, an input that does not
match the approved file-sharing-domain pattern leaves the wizard at the
same step with its collected answers unchanged and re-prompts; submitting
the sentinel "-" at the clip_link step advances to the next step storing
the empty string for clip_link. -/
theorem C8_wizard_link_validation :
    (∀ (st : WizardState) (raw : String), st.stepIndex = 2 →
      is_yandex_disk_link (pyStrip raw) = false →
      handle_step st raw = (st, StepOutcome.reprompt)) ∧
    (∀ (st : WizardState) (raw : String), st.stepIndex = 3 →
      is_yandex_disk_link (pyStrip raw) = false →
      handle_step st raw = (st, StepOutcome.reprompt)) ∧
    (∀ st : WizardState, st.stepIndex = 4 →
      handle_step st ("-") =
        ({ stepIndex := 5, answers := setAnswer st.answers ("clip_link") ("") },
          StepOutcome.advance)) := by
  refine ⟨?_, ?_, ?_⟩
  · intro st raw h2 hlink
    simp only [handle_step]
    rw [if_pos ⟨h2, hlink⟩]
  · intro st raw h3 hlink
    simp only [handle_step]
    rw [if_neg, if_pos ⟨h3, hlink⟩]
    rintro ⟨h, -⟩
    omega
  · intro st h4
    obtain ⟨i, ans⟩ := st
    simp only at h4
    subst h4
    rfl

/-- Witness for C8 at concrete inputs: a non-Yandex link at steps 2 and 3
re-prompts without touching the state, and "-" at step 4 advances with an
empty clip_link. -/
theorem C8_wizard_link_validation_witness :
    handle_step { stepIndex := 2, answers := [] } ("http://example.com/a") =
        ({ stepIndex := 2, answers := [] }, StepOutcome.reprompt) ∧
    handle_step { stepIndex := 3, answers := [("photos_link", "https://yadi.sk/i/q")] }
        ("not a link") =
        ({ stepIndex := 3, answers := [("photos_link", "https://yadi.sk/i/q")] },
          StepOutcome.reprompt) ∧
    handle_step { stepIndex := 4, answers := [] } ("-") =
        ({ stepIndex := 5, answers := [("clip_link", "")] }, StepOutcome.advance) :=
  ⟨C8_wizard_link_validation.1 _ _ rfl (by decide),
    C8_wizard_link_validation.2.1 _ _ rfl (by decide),
    C8_wizard_link_validation.2.2 _ rfl⟩

/-! ## Conflict-scan helper lemmas -/


theorem hourListAux_mem (f h : Int) (n : Nat) :
    h ∈ hourListAux f n ↔ f ≤ h ∧ h < f + n := by
  induction n generalizing f with
  | zero => simp [hourListAux]
  | succ k ih =>
    simp only [hourListAux, List.mem_cons, ih (f + 1)]
    omega

theorem hourList_mem (f t h : Int) : h ∈ hourList f t ↔ f ≤ h ∧ h < t := by
  rw [hourList, hourListAux_mem]
  omega

theorem hourListAux_nodup (f : Int) (n : Nat) : (hourListAux f n).Nodup := by
  induction n generalizing f with
  | zero => simp [hourListAux]
  | succ k ih =>
    simp only [hourListAux, List.nodup_cons]
    refine ⟨fun hc => ?_, ih (f + 1)⟩
    rw [hourListAux_mem] at hc
    omega

theorem hourList_nodup (f t : Int) : (hourList f t).Nodup := hourListAux_nodup _ _

theorem claim_preserves (d : Date) (bid : Nat) (hs : List Int) (m : CellMap)
    (k : Date × Int) (v : Nat) (hv : cellLookup m k = some v) :
    cellLookup (claimCells d bid m hs).1 k = some v := by
  induction hs generalizing m with
  | nil => exact hv
  | cons h rest ih =>
    simp only [claimCells]
    by_cases hc : (cellLookup m (d, h)).isSome
    · rw [if_pos hc]
      exact hv
    · rw [if_neg hc]
      apply ih
      simp only [cellLookup]
      rw [if_neg]
      · exact hv
      · rintro rfl
        rw [hv] at hc
        exact hc rfl

theorem claim_values (d : Date) (bid : Nat) (hs : List Int) (m : CellMap)
    (p : Date × Int) (v : Nat)
    (hv : cellLookup (claimCells d bid m hs).1 p = some v) :
    cellLookup m p = some v ∨ (v = bid ∧ p.1 = d ∧ p.2 ∈ hs) := by
  induction hs generalizing m with
  | nil => exact Or.inl hv
  | cons h rest ih =>
    simp only [claimCells] at hv
    by_cases hc : (cellLookup m (d, h)).isSome
    · rw [if_pos hc] at hv
      exact Or.inl hv
    · rw [if_neg hc] at hv
      rcases ih _ hv with hold | hnew
      · simp only [cellLookup] at hold
        by_cases hk : ((d, h) : Date × Int) = p
        · rw [if_pos hk] at hold
          cases hk
          exact Or.inr ⟨(Option.some.inj hold).symm, rfl, List.mem_cons_self _ _⟩
        · rw [if_neg hk] at hold
          exact Or.inl hold
      · exact Or.inr ⟨hnew.1, hnew.2.1, List.mem_cons_of_mem _ hnew.2.2⟩

theorem claim_false_free (d : Date) (bid : Nat) (hs : List Int) (m : CellMap)
    (hf : (claimCells d bid m hs).2 = false) :
    ∀ h ∈ hs, cellLookup m (d, h) = none := by
  induction hs generalizing m with
  | nil => intro h hh; cases hh
  | cons h0 rest ih =>
    intro h hh
    simp only [claimCells] at hf
    by_cases hc : (cellLookup m (d, h0)).isSome
    · rw [if_pos hc] at hf
      cases hf
    · rw [if_neg hc] at hf
      rcases List.mem_cons.1 hh with rfl | hmem
      · exact Option.not_isSome_iff_eq_none.1 hc
      · have := ih _ hf h hmem
        simp only [cellLookup] at this
        by_cases hk : ((d, h0) : Date × Int) = (d, h)
        · rw [if_pos hk] at this
          cases this
        · rw [if_neg hk] at this
          exact this

theorem claim_false_owns (d : Date) (bid : Nat) (hs : List Int) (m : CellMap)
    (hf : (claimCells d bid m hs).2 = false) (hnd : hs.Nodup) :
    ∀ h ∈ hs, cellLookup (claimCells d bid m hs).1 (d, h) = some bid := by
  induction hs generalizing m with
  | nil => intro h hh; cases hh
  | cons h0 rest ih =>
    intro h hh
    simp only [claimCells] at hf ⊢
    by_cases hc : (cellLookup m (d, h0)).isSome
    · rw [if_pos hc] at hf
      cases hf
    · rw [if_neg hc] at hf
      rw [if_neg hc]
      rcases List.mem_cons.1 hh with rfl | hmem
      · apply claim_preserves
        simp [cellLookup]
      · exact ih _ hf (List.nodup_cons.1 hnd).2 h hmem

theorem claim_false_of_free (d : Date) (bid : Nat) (hs : List Int) (m : CellMap)
    (hfree : ∀ h ∈ hs, cellLookup m (d, h) = none) (hnd : hs.Nodup) :
    (claimCells d bid m hs).2 = false := by
  induction hs generalizing m with
  | nil => rfl
  | cons h0 rest ih =>
    simp only [claimCells]
    have h0free : cellLookup m (d, h0) = none := hfree h0 (List.mem_cons_self _ _)
    rw [if_neg (by simp [h0free])]
    apply ih
    · intro h hmem
      simp only [cellLookup]
      rw [if_neg]
      · exact hfree h (List.mem_cons_of_mem _ hmem)
      · intro hk
        have : h0 = h := congrArg Prod.snd hk
        exact (List.nodup_cons.1 hnd).1 (this ▸ hmem)
    · exact (List.nodup_cons.1 hnd).2

theorem claim_conflict_unchanged (d : Date) (bid : Nat) (f t : Int) (m : CellMap)
    (hinv : ∀ k : Int, f ≤ k → (cellLookup m (d, k)).isSome → (cellLookup m (d, f)).isSome)
    (hc : (claimCells d bid m (hourList f t)).2 = true) :
    (claimCells d bid m (hourList f t)).1 = m := by
  by_cases hf : (cellLookup m (d, f)).isSome
  · rcases hn : (t - f).toNat with _ | n
    · rw [hourList, hn] at hc
      cases hc
    · rw [hourList, hn] at hc ⊢
      simp only [hourListAux, claimCells]
      rw [if_pos hf]
  · exfalso
    have : (claimCells d bid m (hourList f t)).2 = false := by
      apply claim_false_of_free
      · intro h hh
        rw [hourList_mem] at hh
        rcases ho : cellLookup m (d, h) with _ | v
        · rfl
        · exact absurd (hinv h hh.1 (by simp [ho])) hf
      · exact hourList_nodup f t
    rw [this] at hc
    cases hc

theorem scan_preserves (l : List Booking) (m : CellMap) (k : Date × Int) (v : Nat)
    (hv : cellLookup m k = some v) :
    cellLookup (conflictScan m l).1 k = some v := by
  induction l generalizing m with
  | nil => exact hv
  | cons b rest ih =>
    simp only [conflictScan]
    exact ih _ (claim_preserves _ _ _ _ _ _ hv)

theorem scan_values (l : List Booking) (m : CellMap) (p : Date × Int) (v : Nat)
    (hv : cellLookup (conflictScan m l).1 p = some v) :
    cellLookup m p = some v ∨
      ∃ b ∈ l, v = b.id ∧ p.1 = b.date ∧ p.2 ∈ hourList b.timeFrom b.timeTo := by
  induction l generalizing m with
  | nil => exact Or.inl hv
  | cons b rest ih =>
    simp only [conflictScan] at hv
    rcases ih _ hv with hold | ⟨b', hb', hrest⟩
    · rcases claim_values _ _ _ _ _ _ hold with hm | hnew
      · exact Or.inl hm
      · exact Or.inr ⟨b, List.mem_cons_self _ _, hnew⟩
    · exact Or.inr ⟨b', List.mem_cons_of_mem _ hb', hrest⟩

theorem scan_ids_sub (l : List Booking) (m : CellMap) (i : Nat)
    (hi : i ∈ (conflictScan m l).2) : ∃ b ∈ l, i = b.id := by
  induction l generalizing m with
  | nil => cases hi
  | cons b rest ih =>
    simp only [conflictScan] at hi
    by_cases hc : (claimCells b.date b.id m (hourList b.timeFrom b.timeTo)).2 = true
    · rw [if_pos hc] at hi
      rcases List.mem_cons.1 hi with rfl | hmem
      · exact ⟨b, List.mem_cons_self _ _, rfl⟩
      · obtain ⟨b', hb', rfl⟩ := ih _ hmem
        exact ⟨b', List.mem_cons_of_mem _ hb', rfl⟩
    · rw [if_neg hc] at hi
      obtain ⟨b', hb', rfl⟩ := ih _ hi
      exact ⟨b', List.mem_cons_of_mem _ hb', rfl⟩

theorem scan_append (l1 l2 : List Booking) (m : CellMap) :
    conflictScan m (l1 ++ l2) =
      ((conflictScan (conflictScan m l1).1 l2).1,
        (conflictScan m l1).2 ++ (conflictScan (conflictScan m l1).1 l2).2) := by
  induction l1 generalizing m with
  | nil => simp [conflictScan]
  | cons b rest ih =>
    simp only [List.cons_append, conflictScan, ih]
    by_cases hc : (claimCells b.date b.id m (hourList b.timeFrom b.timeTo)).2 = true
    · rw [if_pos hc, if_pos hc]
      simp [conflictScan, ih]
    · rw [if_neg hc, if_neg hc]
      simp [conflictScan, ih]

theorem survivor_flag_false (l1 l2 : List Booking) (b : Booking) (m : CellMap)
    (hnc : b.id ∉ (conflictScan m (l1 ++ b :: l2)).2) :
    (claimCells b.date b.id (conflictScan m l1).1 (hourList b.timeFrom b.timeTo)).2 = false := by
  rw [scan_append] at hnc
  simp only [List.mem_append, not_or] at hnc
  have h2 := hnc.2
  simp only [conflictScan] at h2
  by_cases hc : (claimCells b.date b.id (conflictScan m l1).1 (hourList b.timeFrom b.timeTo)).2 = true
  · rw [if_pos hc] at h2
    exact absurd (List.mem_cons_self _ _) h2
  · exact Bool.not_eq_true _ ▸ hc

theorem survivor_owns (l : List Booking) (b : Booking) (m : CellMap)
    (hb : b ∈ l) (hnc : b.id ∉ (conflictScan m l).2)
    (h : Int) (hh : h ∈ hourList b.timeFrom b.timeTo) :
    cellLookup (conflictScan m l).1 (b.date, h) = some b.id := by
  obtain ⟨l1, l2, rfl⟩ := List.append_of_mem hb
  have hflag := survivor_flag_false l1 l2 b m hnc
  rw [scan_append]
  simp only [conflictScan]
  apply scan_preserves
  exact claim_false_owns _ _ _ _ hflag (hourList_nodup _ _) h hh

theorem dateLt_irrefl (d : Date) : ¬ dateLt d d := by
  unfold dateLt
  omega

theorem inv_step (x : Booking) (rest : List Booking) (m : CellMap)
    (hs : List.Sorted bookLe (x :: rest)) (hinv : scanInv m (x :: rest)) :
    scanInv (claimCells x.date x.id m (hourList x.timeFrom x.timeTo)).1 rest := by
  by_cases hc : (claimCells x.date x.id m (hourList x.timeFrom x.timeTo)).2 = true
  · rw [claim_conflict_unchanged x.date x.id x.timeFrom x.timeTo m
      (fun k hk hsome => hinv x (List.mem_cons_self _ _) k hk hsome) hc]
    exact fun b hb => hinv b (List.mem_cons_of_mem _ hb)
  · replace hc := Bool.not_eq_true _ ▸ hc
    intro b hb k hk hcont
    rcases ho : cellLookup (claimCells x.date x.id m (hourList x.timeFrom x.timeTo)).1 (b.date, k)
      with _ | v
    · rw [ho] at hcont
      cases hcont
    · rcases claim_values _ _ _ _ _ _ ho with hold | ⟨rfl, hdate, hmem⟩
      · have hm0 : (cellLookup m (b.date, b.timeFrom)).isSome :=
          hinv b (List.mem_cons_of_mem _ hb) k hk (by simp [hold])
      
        rcases Option.isSome_iff_exists.1 hm0 with ⟨v', hv'⟩
        have := claim_preserves x.date x.id (hourList x.timeFrom x.timeTo) m _ _ hv'
        simp [this]
      · have hle : bookLe x b := (List.sorted_cons.1 hs).1 b hb
        have hdq : b.date = x.date := hdate
        rcases hle with hlt | ⟨hde, hfle⟩
        · rw [hdq] at hlt
          exact absurd hlt (dateLt_irrefl _)
        · rw [hourList_mem] at hmem
          have hbf : b.timeFrom ∈ hourList x.timeFrom x.timeTo := by
            rw [hourList_mem]
            omega
          have := claim_false_owns _ _ _ _ hc (hourList_nodup _ _) _ hbf
          rw [hdq]
          simp [this]

theorem cancelled_owns_none (l : List Booking) (m : CellMap)
    (hs : List.Sorted bookLe l) (hinv : scanInv m l)
    (hn : (l.map (fun b => b.id)).Nodup)
    (b : Booking) (hb : b ∈ l)
    (hm : ∀ k, cellLookup m k ≠ some b.id)
    (hc : b.id ∈ (conflictScan m l).2) :
    ∀ k, cellLookup (conflictScan m l).1 k ≠ some b.id := by
  induction l generalizing m with
  | nil => cases hb
  | cons x rest ih =>
    intro k hk
    simp only [List.map_cons, List.nodup_cons] at hn
    have hxrest : x.id ∉ rest.map (fun b => b.id) := hn.1
    rcases List.mem_cons.1 hb with rfl | hbmem
    · -- b is the head; its step must have conflicted with the map unchanged
      have hbni : b.id ∉ (conflictScan (claimCells b.date b.id m
          (hourList b.timeFrom b.timeTo)).1 rest).2 := by
        intro hin
        obtain ⟨b', hb', heq⟩ := scan_ids_sub _ _ _ hin
        exact hxrest (heq ▸ List.mem_map_of_mem _ hb')
      have hflag : (claimCells b.date b.id m (hourList b.timeFrom b.timeTo)).2 = true := by
        by_contra hne
        simp only [conflictScan] at hc
        rw [if_neg hne] at hc
        exact hbni hc
      have hunch := claim_conflict_unchanged b.date b.id b.timeFrom b.timeTo m
        (fun k' hk' hsome => hinv b (List.mem_cons_self _ _) k' hk' hsome) hflag
      simp only [conflictScan, hunch] at hk
      rcases scan_values _ _ _ _ hk with hold | ⟨b', hb', heq, -⟩
      · exact hm k hold
      · exact hxrest (heq ▸ List.mem_map_of_mem _ hb')
    · -- b is further down; apply the induction hypothesis after x's step
      have hbid_ne : x.id ≠ b.id := by
        intro he
        exact hxrest (he ▸ List.mem_map_of_mem _ hbmem)
      have hm' : ∀ k', cellLookup (claimCells x.date x.id m
          (hourList x.timeFrom x.timeTo)).1 k' ≠ some b.id := by
        intro k' hk'
        rcases claim_values _ _ _ _ _ _ hk' with hold | ⟨heq, -, -⟩
        · exact hm k' hold
        · exact hbid_ne heq.symm
      have hc' : b.id ∈ (conflictScan (claimCells x.date x.id m
          (hourList x.timeFrom x.timeTo)).1 rest).2 := by
        simp only [conflictScan] at hc
        by_cases hfl : (claimCells x.date x.id m (hourList x.timeFrom x.timeTo)).2 = true
        · rw [if_pos hfl] at hc
          rcases List.mem_cons.1 hc with he | hmem
          · exact absurd he.symm hbid_ne
          · exact hmem
        · rw [if_neg hfl] at hc
          exact hc
      have := ih _ ((List.sorted_cons.1 hs).2) (inv_step x rest m hs hinv)
        hn.2 hbmem hm' hc'
      simp only [conflictScan] at hk
      exact this k hk

theorem reminderPhase_fst (T0 T1 : Int) (ok : Nat → Bool) (l : List Booking) :
    (reminderPhase T0 T1 ok l).1 = l.map (fun b => (reminderStep T0 T1 ok b).1) := by
  induction l with
  | nil => rfl
  | cons b rest ih => simp [reminderPhase, ih]

theorem sweepPhase_fst (now : Int) (l : List Booking) :
    (sweepPhase now l).1 = l.map (fun b => (sweepStep now b).1) := by
  induction l with
  | nil => rfl
  | cons b rest ih => simp [sweepPhase, ih]

theorem tickPass_fst (T0 T1 : Int) (ok : Nat → Bool) (db : List Booking) :
    (tickPass T0 T1 ok db).1 = db.map (passRow (cancelledIds db) T0 T1 ok) := by
  simp [tickPass, reminderPhase_fst, sweepPhase_fst, List.map_map, passRow]

theorem reminderStep_noop (T0 T1 : Int) (ok : Nat → Bool) (b : Booking)
    (hb : b.confirmed < 0) : reminderStep T0 T1 ok b = (b, []) := by
  unfold reminderStep
  rw [if_neg, if_neg, if_neg]
  · intro hc
    unfold condAuto at hc
    omega
  · intro hc
    unfold cond1h at hc
    omega
  · intro hc
    unfold cond24 at hc
    omega

theorem sweepStep_noop (now : Int) (b : Booking) (hb : b.confirmed ≠ 1) :
    sweepStep now b = (b, []) := by
  unfold sweepStep
  rw [if_neg]
  intro hc
  exact hb hc.1

theorem passRow_cancelled (cids : List Nat) (T0 T1 : Int) (ok : Nat → Bool) (b : Booking)
    (hb : b.id ∈ cids) :
    passRow cids T0 T1 ok b = { b with confirmed := -1 } := by
  unfold passRow confRow
  rw [if_pos hb]
  rw [reminderStep_noop _ _ _ _ (by show (-1 : Int) < 0; decide)]
  rw [sweepStep_noop _ _ (by show (-1 : Int) ≠ 1; decide)]

theorem reminderStep_id (T0 T1 : Int) (ok : Nat → Bool) (b : Booking) :
    (reminderStep T0 T1 ok b).1.id = b.id := by
  unfold reminderStep
  split_ifs <;> rfl

theorem sweepStep_id (now : Int) (b : Booking) : (sweepStep now b).1.id = b.id := by
  unfold sweepStep
  split_ifs <;> rfl

theorem confRow_id (cids : List Nat) (b : Booking) : (confRow cids b).id = b.id := by
  unfold confRow
  split_ifs <;> rfl

theorem passRow_id (cids : List Nat) (T0 T1 : Int) (ok : Nat → Bool) (b : Booking) :
    (passRow cids T0 T1 ok b).id = b.id := by
  unfold passRow
  rw [sweepStep_id, reminderStep_id, confRow_id]

theorem eq_of_mem_nodup_ids (l : List Booking) (hn : (l.map (fun x => x.id)).Nodup)
    (a b : Booking) (ha : a ∈ l) (hb : b ∈ l) (hid : a.id = b.id) : a = b := by
  induction l with
  | nil => cases ha
  | cons x rest ih =>
    simp only [List.map_cons, List.nodup_cons] at hn
    rcases List.mem_cons.1 ha with rfl | hamem <;> rcases List.mem_cons.1 hb with rfl | hbmem
    · rfl
    · exact absurd (hid ▸ List.mem_map_of_mem _ hbmem) hn.1
    · exact absurd (hid ▸ List.mem_map_of_mem _ hamem) hn.1
    · exact ih hn.2 hamem hbmem

theorem mem_sorted_active (db : List Booking) (b : Booking) (hb : b ∈ db)
    (hc : 0 ≤ b.confirmed) : b ∈ sortBookings (activeBookings db) := by
  rw [sortBookings, (List.perm_insertionSort bookLe _).mem_iff]
  exact List.mem_filter.2 ⟨hb, decide_eq_true hc⟩

theorem nodup_sorted_active_ids (db : List Booking)
    (hn : (db.map (fun b => b.id)).Nodup) :
    ((sortBookings (activeBookings db)).map (fun b => b.id)).Nodup := by
  rw [sortBookings]
  have hperm := (List.perm_insertionSort bookLe (activeBookings db)).map (fun b => b.id)
  rw [hperm.nodup_iff]
  have hsub : List.Sublist (activeBookings db) db := List.filter_sublist db
  exact List.Nodup.sublist (List.Sublist.map (fun b => b.id) hsub) hn

theorem not_cancelled_of_surviving (db : List Booking) (T0 T1 : Int) (ok : Nat → Bool)
    (b : Booking) (hc : 0 ≤ (passRow (cancelledIds db) T0 T1 ok b).confirmed) :
    b.id ∉ cancelledIds db := by
  intro hin
  rw [passRow_cancelled _ _ _ _ _ hin] at hc
  simp at hc

/-- C2: in the conflict phase over bookings with `confirmed >= 0` scanned
in `(date, time_from)` order, a booking that claims an occupied cell is
cancelled (`confirmed = -1`), its owner is notified, and (as shown by the
cell ownership argument) two distinct overlapping same-date bookings can
never both survive a pass with `confirmed >= 0`. -/
theorem C2_conflict_pass (db : List Booking) (T0 T1 : Int) (ok : Nat → Bool)
    (hn : (db.map (fun b => b.id)).Nodup)
    (A B : Booking) (hA : A ∈ db) (hB : B ∈ db) (hid : A.id ≠ B.id)
    (hdate : A.date = B.date) (hov : hourOverlap A B)
    (hAc : 0 ≤ A.confirmed) (hBc : 0 ≤ B.confirmed) :
    (¬ ∃ a' ∈ (tickPass T0 T1 ok db).1, ∃ b' ∈ (tickPass T0 T1 ok db).1,
        a'.id = A.id ∧ b'.id = B.id ∧ 0 ≤ a'.confirmed ∧ 0 ≤ b'.confirmed) ∧
    (∀ C ∈ db, C.id ∈ cancelledIds db →
      Event.conflictCancel C.id ∈ (tickPass T0 T1 ok db).2 ∧
      ∃ r ∈ (tickPass T0 T1 ok db).1, r.id = C.id ∧ r.confirmed = -1) := by
  constructor
  · rintro ⟨a', ha', b', hb', hia, hib, hca, hcb⟩
    rw [tickPass_fst] at ha' hb'
    obtain ⟨x, hx, rfl⟩ := List.mem_map.1 ha'
    obtain ⟨y, hy, rfl⟩ := List.mem_map.1 hb'
    rw [passRow_id] at hia hib
    have hxA : x = A := eq_of_mem_nodup_ids db hn x A hx hA hia
    have hyB : y = B := eq_of_mem_nodup_ids db hn y B hy hB hib
    rw [hxA] at hca
    rw [hyB] at hcb
    have hAn : A.id ∉ cancelledIds db := not_cancelled_of_surviving db T0 T1 ok A hca
    have hBn : B.id ∉ cancelledIds db := not_cancelled_of_surviving db T0 T1 ok B hcb
    obtain ⟨h, ⟨hA1, hA2⟩, hB1, hB2⟩ := hov
    have hAl := mem_sorted_active db A hA hAc
    have hBl := mem_sorted_active db B hB hBc
    have hAo := survivor_owns _ A _ hAl hAn h (by rw [hourList_mem]; omega)
    have hBo := survivor_owns _ B _ hBl hBn h (by rw [hourList_mem]; omega)
    rw [← hdate] at hBo
    rw [hAo] at hBo
    exact hid (Option.some.inj hBo)
  · intro C hC hCc
    constructor
    · simp only [tickPass, List.mem_append]
      exact Or.inl (Or.inl (List.mem_map_of_mem _ hCc))
    · refine ⟨passRow (cancelledIds db) T0 T1 ok C, ?_, ?_, ?_⟩
      · rw [tickPass_fst]
        exact List.mem_map_of_mem _ hC
      · rw [passRow_id]
      · rw [passRow_cancelled _ _ _ _ _ hCc]

theorem scanInv_nil_map (l : List Booking) : scanInv [] l := by
  intro b hb k hk hsome
  simp [cellLookup] at hsome

theorem cellLookup_nil (k : Date × Int) (v : Nat) : cellLookup [] k ≠ some v := by
  simp [cellLookup]

/-- C9 refutation: the claimed three-booking scenario is impossible.  In
the `(date, time_from)`-sorted scan a cancelled booking conflicts at its
very first cell and therefore owns no cell of the final map, so no
booking C can "overlap only B's pre-conflict cells" for a cancelled B:
the conjunction asserted by the claim has no witness. -/
theorem C9_counterexample :
    ¬ ∃ A B C : Booking,
        A.id ≠ B.id ∧ A.id ≠ C.id ∧ B.id ≠ C.id ∧
        0 ≤ A.confirmed ∧ 0 ≤ B.confirmed ∧ 0 ≤ C.confirmed ∧
        hourOverlap A B ∧
        B.id ∈ (conflictRun [A, B, C]).2 ∧
        (∃ h : Int, h ∈ hourList C.timeFrom C.timeTo ∧
          cellLookup (conflictRun [A, B, C]).1 (C.date, h) = some B.id) ∧
        ¬ hourOverlap A C ∧
        C.id ∈ (conflictRun [A, B, C]).2 := by
  rintro ⟨A, B, C, hab, hac, hbc, ha0, hb0, hc0, hov, hBcan, ⟨h, hh, hown⟩, hnov, hCcan⟩
  have hBl : B ∈ sortBookings (activeBookings [A, B, C]) :=
    mem_sorted_active _ B (by simp) hb0
  have hnod : (([A, B, C].map (fun b => b.id)).Nodup) := by
    simp [List.nodup_cons]
    exact ⟨⟨hab, hac⟩, hbc⟩
  have hn := nodup_sorted_active_ids [A, B, C] hnod
  have := cancelled_owns_none _ []
    (List.sorted_insertionSort bookLe _) (scanInv_nil_map _) hn B hBl
    (fun k => cellLookup_nil k B.id) hBcan (C.date, h)
  exact this hown

/-- C9 (amended): cells, once claimed, persist in the `booked_map` for
the rest of the pass (the map is never pruned), but under the
`(date, time_from)` scan order a booking that is cancelled has always
been cancelled at its very first cell, so it owns no cells at all; the
three-booking cascade described by the claim therefore cannot occur. -/
theorem C9_amended :
    (∀ (l1 l2 : List Booking) (k : Date × Int) (v : Nat),
        cellLookup (conflictScan [] l1).1 k = some v →
        cellLookup (conflictScan [] (l1 ++ l2)).1 k = some v) ∧
    (∀ db : List Booking, (db.map (fun b => b.id)).Nodup →
      ∀ b ∈ db, b.id ∈ cancelledIds db →
        ∀ k, cellLookup (conflictRun db).1 k ≠ some b.id) := by
  constructor
  · intro l1 l2 k v hv
    rw [scan_append]
    exact scan_preserves _ _ _ _ hv
  · intro db hn b hb hcan k
    obtain ⟨b', hb', heq⟩ := scan_ids_sub _ _ _ hcan
    have hb'db : b' ∈ db :=
      (List.mem_filter.1 ((List.perm_insertionSort bookLe (activeBookings db)).mem_iff.1 hb')).1
    have hbb : b' = b := eq_of_mem_nodup_ids db hn b' b hb'db hb heq.symm
    rw [← hbb]
    rw [← hbb] at hcan
    exact cancelled_owns_none _ [] (List.sorted_insertionSort bookLe _)
      (scanInv_nil_map _) (nodup_sorted_active_ids db hn) b' hb'
      (fun k' => cellLookup_nil k' b'.id) hcan k

theorem scan_distinct_dates (l : List Booking) (m : CellMap)
    (hpd : List.Pairwise (fun a b => a.date ≠ b.date) l)
    (hfree : ∀ b ∈ l, ∀ h : Int, cellLookup m (b.date, h) = none) :
    (conflictScan m l).2 = [] := by
  induction l generalizing m with
  | nil => rfl
  | cons x rest ih =>
    simp only [conflictScan]
    have hflag : (claimCells x.date x.id m (hourList x.timeFrom x.timeTo)).2 = false := by
      apply claim_false_of_free
      · intro h hh
        exact hfree x (List.mem_cons_self _ _) h
      · exact hourList_nodup _ _
    rw [if_neg (by simp [hflag])]
    apply ih _ (List.pairwise_cons.1 hpd).2
    intro b hb h
    rcases ho : cellLookup (claimCells x.date x.id m (hourList x.timeFrom x.timeTo)).1 (b.date, h)
      with _ | v
    · rfl
    · exfalso
      rcases claim_values _ _ _ _ _ _ ho with hold | ⟨-, hdd, -⟩
      · rw [hfree b (List.mem_cons_of_mem _ hb) h] at hold
        cases hold
      · exact (List.pairwise_cons.1 hpd).1 b hb hdd.symm

/-- C10: conflict detection keys occupied cells by the stored date value
and the raw hour, without normalising hours >= 24 onto the next date; two
bookings stored under different dates never cancel each other, even when
rollover hours make their actual time intervals overlap, as in the
concrete 2024-01-01 25:00-27:00 versus 2024-01-02 01:00-03:00 pair. -/
theorem C10_distinct_dates_no_conflict :
    (∀ A B : Booking, A.date ≠ B.date → cancelledIds [A, B] = []) ∧
    (cancelledIds
        [{ id := 1, userId := 10, date := ⟨2024, 1, 1⟩, timeFrom := 25, timeTo := 27,
            confirmed := 0, notified24h := false, notified1h := false },
          { id := 2, userId := 20, date := ⟨2024, 1, 2⟩, timeFrom := 1, timeTo := 3,
            confirmed := 0, notified24h := false, notified1h := false }] = [] ∧
      startInstant
          { id := 1, userId := 10, date := ⟨2024, 1, 1⟩, timeFrom := 25, timeTo := 27,
            confirmed := 0, notified24h := false, notified1h := false } <
        endInstant
          { id := 2, userId := 20, date := ⟨2024, 1, 2⟩, timeFrom := 1, timeTo := 3,
            confirmed := 0, notified24h := false, notified1h := false } ∧
      startInstant
          { id := 2, userId := 20, date := ⟨2024, 1, 2⟩, timeFrom := 1, timeTo := 3,
            confirmed := 0, notified24h := false, notified1h := false } <
        endInstant
          { id := 1, userId := 10, date := ⟨2024, 1, 1⟩, timeFrom := 25, timeTo := 27,
            confirmed := 0, notified24h := false, notified1h := false }) := by
  constructor
  · intro A B hd
    unfold cancelledIds conflictRun
    apply scan_distinct_dates
    · have hsub : List.Sublist (activeBookings [A, B]) [A, B] := List.filter_sublist _
      have hpd : List.Pairwise (fun a b : Booking => a.date ≠ b.date) [A, B] := by
        simp [List.pairwise_cons]
        exact hd
      have := List.Pairwise.sublist hsub hpd
      rw [sortBookings]
      refine (List.Perm.pairwise_iff ?_ (List.perm_insertionSort bookLe _)).2 this
      intro a b hne
      exact fun he => hne he.symm
    · intro b hb h
      rfl
  · refine ⟨by decide, by decide, by decide⟩

/-- Witness for C2 on a concrete pair of overlapping same-date bookings:
not both survive the pass, and the cancelled one (`wB1`, which claims the
occupied 11:00 cell) is set to `confirmed = -1` and notified. -/
theorem C2_conflict_pass_witness :
    (¬ ∃ a' ∈ (tickPass 0 1 (fun _ => true) [wA, wB1]).1,
        ∃ b' ∈ (tickPass 0 1 (fun _ => true) [wA, wB1]).1,
          a'.id = wA.id ∧ b'.id = wB1.id ∧ 0 ≤ a'.confirmed ∧ 0 ≤ b'.confirmed) ∧
    (Event.conflictCancel wB1.id ∈ (tickPass 0 1 (fun _ => true) [wA, wB1]).2 ∧
      ∃ r ∈ (tickPass 0 1 (fun _ => true) [wA, wB1]).1, r.id = wB1.id ∧ r.confirmed = -1) :=
  ⟨(C2_conflict_pass [wA, wB1] 0 1 (fun _ => true) (by decide) wA wB1 (by decide)
      (by decide) (by decide) (by decide) (by decide) (by decide) (by decide)).1,
    (C2_conflict_pass [wA, wB1] 0 1 (fun _ => true) (by decide) wA wB1 (by decide)
      (by decide) (by decide) (by decide) (by decide) (by decide) (by decide)).2
      wB1 (by decide) (by decide)⟩

/-- Witness for C9's amended statement: `wA`'s 10:00 cell persists after
`wB0` is processed, and the cancelled `wB0` owns no cell. -/
theorem C9_amended_witness :
    cellLookup (conflictScan [] ([wA] ++ [wB0])).1 (⟨2024, 6, 1⟩, 10) = some 1 ∧
    cellLookup (conflictRun [wA, wB0]).1 (⟨2024, 6, 1⟩, 11) ≠ some 2 :=
  ⟨C9_amended.1 [wA] [wB0] (⟨2024, 6, 1⟩, 10) 1 (by decide),
    C9_amended.2 [wA, wB0] (by decide) wB0 (by decide) (by decide) (⟨2024, 6, 1⟩, 11)⟩

/-- Witness for C10 at a concrete different-date pair. -/
theorem C10_distinct_dates_no_conflict_witness :
    cancelledIds [wC, wD] = [] :=
  C10_distinct_dates_no_conflict.1 wC wD (by decide)

theorem reminderStep_of_cond24 (T0 T1 : Int) (ok : Nat → Bool) (b : Booking)
    (hc : cond24 T0 T1 b) :
    reminderStep T0 T1 ok b =
      (if ok b.id then { b with notified24h := true } else b, [Event.remind24 b.id]) := by
  unfold reminderStep
  rw [if_pos hc]
  split_ifs <;> rfl

theorem reminderStep_of_cond1h (T0 T1 : Int) (ok : Nat → Bool) (b : Booking)
    (h24 : ¬ cond24 T0 T1 b) (hc : cond1h T0 T1 b) :
    reminderStep T0 T1 ok b =
      (if ok b.id then { b with notified1h := true } else b, [Event.remind1 b.id]) := by
  unfold reminderStep
  rw [if_neg h24, if_pos hc]
  split_ifs <;> rfl

theorem reminderStep_of_condAuto (T0 T1 : Int) (ok : Nat → Bool) (b : Booking)
    (h24 : ¬ cond24 T0 T1 b) (h1 : ¬ cond1h T0 T1 b) (hc : condAuto T0 T1 b) :
    reminderStep T0 T1 ok b = ({ b with confirmed := -1 }, [Event.autoCancel b.id]) := by
  unfold reminderStep
  rw [if_neg h24, if_neg h1, if_pos hc]

theorem reminderStep_of_none (T0 T1 : Int) (ok : Nat → Bool) (b : Booking)
    (h24 : ¬ cond24 T0 T1 b) (h1 : ¬ cond1h T0 T1 b) (ha : ¬ condAuto T0 T1 b) :
    reminderStep T0 T1 ok b = (b, []) := by
  unfold reminderStep
  rw [if_neg h24, if_neg h1, if_neg ha]

theorem cond24_set1h (T0 T1 : Int) (b : Booking) :
    cond24 T0 T1 { b with notified1h := true } ↔ cond24 T0 T1 b := Iff.rfl

theorem cond1h_set24 (T0 T1 : Int) (b : Booking) :
    cond1h T0 T1 { b with notified24h := true } ↔ cond1h T0 T1 b := Iff.rfl

theorem condAuto_set24 (T0 T1 : Int) (b : Booking) :
    condAuto T0 T1 { b with notified24h := true } ↔ condAuto T0 T1 b := Iff.rfl

theorem condAuto_set1h (T0 T1 : Int) (b : Booking) :
    condAuto T0 T1 { b with notified1h := true } ↔ condAuto T0 T1 b := Iff.rfl

/-- C3: per booking per pass at most one of the three branches fires, and
they are evaluated in the fixed priority order 24h, then 1h, then
auto-cancel: the emitted notification list has length at most one and is
exactly the highest-priority branch whose precondition holds. -/
theorem C3_branch_priority (T0 T1 : Int) (ok : Nat → Bool) (b : Booking) :
    (reminderStep T0 T1 ok b).2.length ≤ 1 ∧
    (cond24 T0 T1 b → (reminderStep T0 T1 ok b).2 = [Event.remind24 b.id]) ∧
    (¬ cond24 T0 T1 b → cond1h T0 T1 b →
      (reminderStep T0 T1 ok b).2 = [Event.remind1 b.id]) ∧
    (¬ cond24 T0 T1 b → ¬ cond1h T0 T1 b → condAuto T0 T1 b →
      (reminderStep T0 T1 ok b).2 = [Event.autoCancel b.id]) ∧
    (¬ cond24 T0 T1 b → ¬ cond1h T0 T1 b → ¬ condAuto T0 T1 b →
      (reminderStep T0 T1 ok b).2 = []) := by
  refine ⟨?_, ?_, ?_, ?_, ?_⟩
  · by_cases h24 : cond24 T0 T1 b
    · rw [reminderStep_of_cond24 _ _ _ _ h24]
      simp
    · by_cases h1 : cond1h T0 T1 b
      · rw [reminderStep_of_cond1h _ _ _ _ h24 h1]
        simp
      · by_cases ha : condAuto T0 T1 b
        · rw [reminderStep_of_condAuto _ _ _ _ h24 h1 ha]
          simp
        · rw [reminderStep_of_none _ _ _ _ h24 h1 ha]
          simp
  · intro h24
    rw [reminderStep_of_cond24 _ _ _ _ h24]
  · intro h24 h1
    rw [reminderStep_of_cond1h _ _ _ _ h24 h1]
  · intro h24 h1 ha
    rw [reminderStep_of_condAuto _ _ _ _ h24 h1 ha]
  · intro h24 h1 ha
    rw [reminderStep_of_none _ _ _ _ h24 h1 ha]

/-- C1 (amended): the 24h branch fires iff its flag/confirmed
preconditions hold and `T0 < t <= T1`; each lower-priority branch fires
iff additionally no higher-priority branch fires in the same evaluation;
and after a successful firing a second evaluation with the same
`(T0, T1)` pair does not fire the same branch again. -/
theorem C1_window_iff (T0 T1 : Int) (ok : Nat → Bool) (b : Booking) :
    (Event.remind24 b.id ∈ (reminderStep T0 T1 ok b).2 ↔ cond24 T0 T1 b) ∧
    (Event.remind1 b.id ∈ (reminderStep T0 T1 ok b).2 ↔
      ¬ cond24 T0 T1 b ∧ cond1h T0 T1 b) ∧
    (Event.autoCancel b.id ∈ (reminderStep T0 T1 ok b).2 ↔
      ¬ cond24 T0 T1 b ∧ ¬ cond1h T0 T1 b ∧ condAuto T0 T1 b) ∧
    (cond24 T0 T1 b → ok b.id = true →
      Event.remind24 b.id ∉ (reminderStep T0 T1 ok (reminderStep T0 T1 ok b).1).2) ∧
    (¬ cond24 T0 T1 b → cond1h T0 T1 b → ok b.id = true →
      Event.remind1 b.id ∉ (reminderStep T0 T1 ok (reminderStep T0 T1 ok b).1).2) ∧
    (¬ cond24 T0 T1 b → ¬ cond1h T0 T1 b → condAuto T0 T1 b →
      Event.autoCancel b.id ∉ (reminderStep T0 T1 ok (reminderStep T0 T1 ok b).1).2) := by
  have hcases : ∀ c : Booking, (reminderStep T0 T1 ok c).2 = [Event.remind24 c.id] ∧ cond24 T0 T1 c ∨
      (reminderStep T0 T1 ok c).2 = [Event.remind1 c.id] ∧ ¬ cond24 T0 T1 c ∧ cond1h T0 T1 c ∨
      (reminderStep T0 T1 ok c).2 = [Event.autoCancel c.id] ∧ ¬ cond24 T0 T1 c ∧ ¬ cond1h T0 T1 c ∧ condAuto T0 T1 c ∨
      (reminderStep T0 T1 ok c).2 = [] ∧ ¬ cond24 T0 T1 c ∧ ¬ cond1h T0 T1 c ∧ ¬ condAuto T0 T1 c := by
    intro c
    by_cases h24 : cond24 T0 T1 c
    · exact Or.inl ⟨by rw [reminderStep_of_cond24 _ _ _ _ h24], h24⟩
    · by_cases h1 : cond1h T0 T1 c
      · exact Or.inr (Or.inl ⟨by rw [reminderStep_of_cond1h _ _ _ _ h24 h1], h24, h1⟩)
      · by_cases ha : condAuto T0 T1 c
        · exact Or.inr (Or.inr (Or.inl
            ⟨by rw [reminderStep_of_condAuto _ _ _ _ h24 h1 ha], h24, h1, ha⟩))
        · exact Or.inr (Or.inr (Or.inr
            ⟨by rw [reminderStep_of_none _ _ _ _ h24 h1 ha], h24, h1, ha⟩))
  refine ⟨?_, ?_, ?_, ?_, ?_, ?_⟩
  · rcases hcases b with ⟨he, hc⟩ | ⟨he, hc⟩ | ⟨he, hc⟩ | ⟨he, hc⟩ <;> rw [he] <;> simp_all
  · rcases hcases b with ⟨he, hc⟩ | ⟨he, hc⟩ | ⟨he, hc⟩ | ⟨he, hc⟩ <;> rw [he] <;> simp_all
  · rcases hcases b with ⟨he, hc⟩ | ⟨he, hc⟩ | ⟨he, hc⟩ | ⟨he, hc⟩ <;> rw [he] <;> simp_all
  · intro h24 hok
    rw [reminderStep_of_cond24 _ _ _ _ h24]
    simp only [if_pos hok]
    have hno : ¬ cond24 T0 T1 { b with notified24h := true } := by
      intro hc
      exact absurd hc.2.1 (by simp)
    rcases hcases { b with notified24h := true } with ⟨he, hc⟩ | ⟨he, hc⟩ | ⟨he, hc⟩ | ⟨he, hc⟩ <;>
      first
      | exact absurd hc hno
      | (rw [he]; simp)
  · intro h24 h1 hok
    rw [reminderStep_of_cond1h _ _ _ _ h24 h1]
    simp only [if_pos hok]
    have hno : ¬ cond1h T0 T1 { b with notified1h := true } := by
      intro hc
      exact absurd hc.2.1 (by simp)
    have hno24 : ¬ cond24 T0 T1 { b with notified1h := true } := by
      rw [cond24_set1h]
      exact h24
    rcases hcases { b with notified1h := true } with ⟨he, hc⟩ | ⟨he, hc⟩ | ⟨he, hc⟩ | ⟨he, hc⟩ <;>
      first
      | exact absurd hc hno24
      | exact absurd hc.2 hno
      | (rw [he]; simp)
  · intro h24 h1 ha
    rw [reminderStep_of_condAuto _ _ _ _ h24 h1 ha]
    rw [reminderStep_noop _ _ _ _ (by show (-1 : Int) < 0; decide)]
    simp

/-- C1 refutation: a concrete state where the 1h branch's flag/confirmed
preconditions hold and its target instant lies in `(T0, T1]`, yet the
pass does not emit the 1h prompt, because the same pass's window also
contains the 24h target and that branch wins the `if/elif` chain. -/
theorem C1_counterexample :
    wA.confirmed = 0 ∧ wA.notified1h = false ∧
    t24 wA - 60 < t1h wA ∧ t1h wA ≤ t1h wA ∧
    Event.remind1 wA.id ∉ (tickPass (t24 wA - 60) (t1h wA) (fun _ => true) [wA]).2 := by
  decide

/-- C4 refutation: a booking with `confirmed = 0` whose start-10min
instant lies in the pass window is NOT cancelled by the pass when the 1h
prompt fires in the same pass (its `notified_1h` flag is clear and the 1h
target is also inside the window), contradicting "unconditionally on
notification flags". -/
theorem C4_counterexample :
    wA.confirmed = 0 ∧
    startInstant wA - 120 < tAuto wA ∧ tAuto wA ≤ startInstant wA ∧
    ∀ r ∈ (tickPass (startInstant wA - 120) (startInstant wA) (fun _ => true) [wA]).1,
      r.confirmed ≠ -1 := by
  decide

theorem mem_reminderPhase_events (T0 T1 : Int) (ok : Nat → Bool) (l : List Booking)
    (e : Event) :
    e ∈ (reminderPhase T0 T1 ok l).2 ↔ ∃ b ∈ l, e ∈ (reminderStep T0 T1 ok b).2 := by
  induction l with
  | nil => simp [reminderPhase]
  | cons b rest ih => simp [reminderPhase, ih]

theorem mem_sweepPhase_events (now : Int) (l : List Booking) (e : Event) :
    e ∈ (sweepPhase now l).2 ↔ ∃ b ∈ l, e ∈ (sweepStep now b).2 := by
  induction l with
  | nil => simp [sweepPhase]
  | cons b rest ih => simp [sweepPhase, ih]

theorem mem_tickPass_events (T0 T1 : Int) (ok : Nat → Bool) (db : List Booking) (e : Event) :
    e ∈ (tickPass T0 T1 ok db).2 ↔
      (∃ i ∈ cancelledIds db, e = Event.conflictCancel i) ∨
      (∃ b ∈ db, e ∈ (reminderStep T0 T1 ok (confRow (cancelledIds db) b)).2) ∨
      (∃ b ∈ db, e ∈ (sweepStep T1
        (reminderStep T0 T1 ok (confRow (cancelledIds db) b)).1).2) := by
  simp only [tickPass, List.mem_append, mem_reminderPhase_events, mem_sweepPhase_events,
    reminderPhase_fst, List.mem_map]
  constructor
  · rintro ((⟨i, hi, rfl⟩ | ⟨b, ⟨x, hx, rfl⟩, he⟩) | ⟨b, ⟨x, ⟨y, hy, rfl⟩, rfl⟩, he⟩)
    · exact Or.inl ⟨i, hi, rfl⟩
    · exact Or.inr (Or.inl ⟨x, hx, he⟩)
    · exact Or.inr (Or.inr ⟨y, hy, he⟩)
  · rintro (⟨i, hi, rfl⟩ | ⟨b, hb, he⟩ | ⟨b, hb, he⟩)
    · exact Or.inl (Or.inl ⟨i, hi, rfl⟩)
    · exact Or.inl (Or.inr ⟨confRow (cancelledIds db) b, ⟨b, hb, rfl⟩, he⟩)
    · exact Or.inr ⟨(reminderStep T0 T1 ok (confRow (cancelledIds db) b)).1,
        ⟨confRow (cancelledIds db) b, ⟨b, hb, rfl⟩, rfl⟩, he⟩

theorem reminderStep_event_bid (T0 T1 : Int) (ok : Nat → Bool) (b : Booking) (e : Event)
    (he : e ∈ (reminderStep T0 T1 ok b).2) : e.bid = b.id ∧ 0 ≤ b.confirmed := by
  by_cases h24 : cond24 T0 T1 b
  · rw [reminderStep_of_cond24 _ _ _ _ h24] at he
    simp only [List.mem_singleton] at he
    exact ⟨he ▸ rfl, h24.1⟩
  · by_cases h1 : cond1h T0 T1 b
    · rw [reminderStep_of_cond1h _ _ _ _ h24 h1] at he
      simp only [List.mem_singleton] at he
      exact ⟨he ▸ rfl, by rw [h1.1]⟩
    · by_cases ha : condAuto T0 T1 b
      · rw [reminderStep_of_condAuto _ _ _ _ h24 h1 ha] at he
        simp only [List.mem_singleton] at he
        exact ⟨he ▸ rfl, by rw [ha.1]⟩
      · rw [reminderStep_of_none _ _ _ _ h24 h1 ha] at he
        cases he

theorem sweepStep_event_bid (now : Int) (b : Booking) (e : Event)
    (he : e ∈ (sweepStep now b).2) : e.bid = b.id ∧ b.confirmed = 1 := by
  unfold sweepStep at he
  by_cases hc : b.confirmed = 1 ∧ endInstant b ≤ now
  · rw [if_pos hc] at he
    simp only [List.mem_singleton] at he
    exact ⟨he ▸ rfl, hc.1⟩
  · rw [if_neg hc] at he
    cases he

theorem not_mem_cancelled_of_neg (db : List Booking)
    (hn : (db.map (fun b => b.id)).Nodup) (b : Booking) (hb : b ∈ db)
    (hc : b.confirmed < 0) : b.id ∉ cancelledIds db := by
  intro hin
  obtain ⟨b', hb', heq⟩ := scan_ids_sub _ _ _ hin
  have hb'act : b' ∈ activeBookings db :=
    (List.perm_insertionSort bookLe (activeBookings db)).mem_iff.1 hb'
  have hb'db : b' ∈ db := (List.mem_filter.1 hb'act).1
  have hb'c : 0 ≤ b'.confirmed := by
    have := (List.mem_filter.1 hb'act).2
    exact of_decide_eq_true this
  have : b' = b := eq_of_mem_nodup_ids db hn b' b hb'db hb heq.symm
  rw [this] at hb'c
  omega

theorem confRow_neg (cids : List Nat) (b : Booking) (hb : b.id ∉ cids) :
    confRow cids b = b := by
  unfold confRow
  rw [if_neg hb]

theorem pass_fixed_neg (db : List Booking) (T0 T1 : Int) (ok : Nat → Bool)
    (hn : (db.map (fun b => b.id)).Nodup) (b : Booking) (hb : b ∈ db)
    (hc : b.confirmed < 0) :
    passRow (cancelledIds db) T0 T1 ok b = b ∧
    ∀ e ∈ (tickPass T0 T1 ok db).2, e.bid ≠ b.id := by
  have hnc := not_mem_cancelled_of_neg db hn b hb hc
  have hfix : passRow (cancelledIds db) T0 T1 ok b = b := by
    unfold passRow
    rw [confRow_neg _ _ hnc, reminderStep_noop _ _ _ _ hc,
      sweepStep_noop _ _ (show b.confirmed ≠ 1 by omega)]
  refine ⟨hfix, ?_⟩
  intro e he heb
  rcases (mem_tickPass_events _ _ _ _ _).1 he with ⟨i, hi, rfl⟩ | ⟨x, hx, hex⟩ | ⟨x, hx, hex⟩
  · rw [show Event.bid (Event.conflictCancel i) = i from rfl] at heb
    rw [heb] at hi
    exact hnc hi
  · have hbid := (reminderStep_event_bid _ _ _ _ _ hex).1
    rw [confRow_id] at hbid
    rw [heb] at hbid
    have hxb : x = b := eq_of_mem_nodup_ids db hn x b hx hb hbid.symm
    rw [hxb, confRow_neg _ _ hnc, reminderStep_noop _ _ _ _ hc] at hex
    cases hex
  · have hbid := (sweepStep_event_bid _ _ _ hex).1
    rw [reminderStep_id, confRow_id] at hbid
    rw [heb] at hbid
    have hxb : x = b := eq_of_mem_nodup_ids db hn x b hx hb hbid.symm
    rw [hxb, confRow_neg _ _ hnc, reminderStep_noop _ _ _ _ hc] at hex
    rw [sweepStep_noop _ _ (show b.confirmed ≠ 1 by omega)] at hex
    cases hex

theorem runDb_map (ticks : Nat → Int) (oks : Nat → Nat → Bool) (db : List Booking) (n : Nat) :
    runDb ticks oks db n = db.map (fun b => rowState ticks oks db b n) := by
  induction n with
  | zero =>
    simp [runDb, rowState]
  | succ n ih =>
    show (tickPass (ticks n) (ticks (n + 1)) (oks n) (runDb ticks oks db n)).1 = _
    rw [tickPass_fst, ih, List.map_map]
    apply List.map_congr_left
    intro x hx
    have hx1 : rowState ticks oks db x (n + 1) =
        passRow (cancelledIds (runDb ticks oks db n)) (ticks n) (ticks (n + 1)) (oks n)
          (rowState ticks oks db x n) := rfl
    rw [hx1, ih]
    rfl

theorem rowState_id (ticks : Nat → Int) (oks : Nat → Nat → Bool) (db : List Booking)
    (b : Booking) (n : Nat) : (rowState ticks oks db b n).id = b.id := by
  induction n with
  | zero => rfl
  | succ n ih =>
    show (passRow _ _ _ _ (rowState ticks oks db b n)).id = b.id
    rw [passRow_id, ih]

theorem runDb_ids (ticks : Nat → Int) (oks : Nat → Nat → Bool) (db : List Booking) (n : Nat) :
    (runDb ticks oks db n).map (fun b => b.id) = db.map (fun b => b.id) := by
  rw [runDb_map, List.map_map]
  apply List.map_congr_left
  intro b hb
  exact rowState_id ticks oks db b n

theorem neg_row_frozen (ticks : Nat → Int) (oks : Nat → Nat → Bool) (db : List Booking)
    (hn : (db.map (fun b => b.id)).Nodup) (b : Booking) (hb : b ∈ db)
    (hc : b.confirmed < 0) (n : Nat) :
    rowState ticks oks db b n = b ∧ ∀ e ∈ runEvents ticks oks db n, e.bid ≠ b.id := by
  have hfrozen : ∀ m : Nat, rowState ticks oks db b m = b := by
    intro m
    induction m with
    | zero => rfl
    | succ m ih =>
      show passRow _ _ _ _ (rowState ticks oks db b m) = b
      rw [ih]
      have hnod : ((runDb ticks oks db m).map (fun x => x.id)).Nodup := by
        rw [runDb_ids]
        exact hn
      have hmem : b ∈ runDb ticks oks db m := by
        rw [runDb_map]
        have hmm : rowState ticks oks db b m ∈
            List.map (fun x => rowState ticks oks db x m) db :=
          List.mem_map_of_mem _ hb
        rwa [ih] at hmm
      exact (pass_fixed_neg _ (ticks m) (ticks (m + 1)) (oks m) hnod b hmem hc).1
  refine ⟨hfrozen n, ?_⟩
  have hnod : ((runDb ticks oks db n).map (fun x => x.id)).Nodup := by
    rw [runDb_ids]
    exact hn
  have hmem : b ∈ runDb ticks oks db n := by
    rw [runDb_map]
    have hmm : rowState ticks oks db b n ∈
        List.map (fun x => rowState ticks oks db x n) db :=
      List.mem_map_of_mem _ hb
    rwa [hfrozen n] at hmm
  exact (pass_fixed_neg _ (ticks n) (ticks (n + 1)) (oks n) hnod b hmem hc).2

/-- C4 (amended): a booking with `confirmed = 0` whose start-10min
instant falls inside `(T0, T1]` is set to `confirmed = -1` and its owner
notified, provided the conflict phase did not already cancel it and no
higher-priority reminder branch fires in the same pass; and once
`confirmed` is negative the row is excluded from every phase of every
subsequent pass: it never changes again and no notification ever
concerns it. -/
theorem C4_autocancel_amended :
    (∀ (db : List Booking) (T0 T1 : Int) (ok : Nat → Bool),
      (db.map (fun b => b.id)).Nodup → ∀ b ∈ db, b.confirmed = 0 →
      T0 < tAuto b → tAuto b ≤ T1 → b.id ∉ cancelledIds db →
      ¬ cond24 T0 T1 b → ¬ cond1h T0 T1 b →
      (∃ r ∈ (tickPass T0 T1 ok db).1, r.id = b.id ∧ r.confirmed = -1) ∧
      Event.autoCancel b.id ∈ (tickPass T0 T1 ok db).2) ∧
    (∀ (ticks : Nat → Int) (oks : Nat → Nat → Bool) (db : List Booking),
      (db.map (fun b => b.id)).Nodup → ∀ b ∈ db, b.confirmed < 0 → ∀ n : Nat,
      rowState ticks oks db b n = b ∧
      ∀ e ∈ runEvents ticks oks db n, e.bid ≠ b.id) := by
  constructor
  · intro db T0 T1 ok hn b hb hc hw1 hw2 hnc h24 h1
    have hauto : condAuto T0 T1 b := ⟨hc, hw1, hw2⟩
    have hcf : confRow (cancelledIds db) b = b := confRow_neg _ _ hnc
    have hstep : reminderStep T0 T1 ok (confRow (cancelledIds db) b) =
        ({ b with confirmed := -1 }, [Event.autoCancel b.id]) := by
      rw [hcf]
      exact reminderStep_of_condAuto _ _ _ _ h24 h1 hauto
    constructor
    · refine ⟨passRow (cancelledIds db) T0 T1 ok b, ?_, ?_, ?_⟩
      · rw [tickPass_fst]
        exact List.mem_map_of_mem _ hb
      · rw [passRow_id]
      · unfold passRow
        rw [hstep, sweepStep_noop _ _ (show (-1 : Int) ≠ 1 by decide)]
    · rw [mem_tickPass_events]
      refine Or.inr (Or.inl ⟨b, hb, ?_⟩)
      rw [hstep]
      exact List.mem_singleton.2 rfl
  · intro ticks oks db hn b hb hc n
    exact neg_row_frozen ticks oks db hn b hb hc n

/-- Witness for C3 at concrete windows crossing, respectively, the 24h
target, the 1h target, the auto-cancel target, and nothing. -/
theorem C3_branch_priority_witness :
    (reminderStep (t24 wA - 5) (t24 wA) (fun _ => true) wA).2.length ≤ 1 ∧
    (reminderStep (t24 wA - 5) (t24 wA) (fun _ => true) wA).2 = [Event.remind24 wA.id] ∧
    (reminderStep (t1h wA - 5) (t1h wA) (fun _ => true) wA).2 = [Event.remind1 wA.id] ∧
    (reminderStep (tAuto wA - 5) (tAuto wA) (fun _ => true) wA).2 = [Event.autoCancel wA.id] ∧
    (reminderStep 0 1 (fun _ => true) wA).2 = [] :=
  ⟨(C3_branch_priority (t24 wA - 5) (t24 wA) (fun _ => true) wA).1,
    (C3_branch_priority (t24 wA - 5) (t24 wA) (fun _ => true) wA).2.1 (by decide),
    (C3_branch_priority (t1h wA - 5) (t1h wA) (fun _ => true) wA).2.2.1 (by decide) (by decide),
    (C3_branch_priority (tAuto wA - 5) (tAuto wA) (fun _ => true) wA).2.2.2.1 (by decide)
      (by decide) (by decide),
    (C3_branch_priority 0 1 (fun _ => true) wA).2.2.2.2 (by decide) (by decide) (by decide)⟩

/-- Witness for C1's amended statement at concrete windows: the firing
iffs at a 24h-crossing window, and no re-firing of each branch on a
second evaluation with the unchanged window. -/
theorem C1_window_iff_witness :
    (Event.remind24 wB0.id ∈ (reminderStep (t24 wB0 - 5) (t24 wB0) (fun _ => true) wB0).2 ↔
      cond24 (t24 wB0 - 5) (t24 wB0) wB0) ∧
    Event.remind24 wB0.id ∉ (reminderStep (t24 wB0 - 5) (t24 wB0) (fun _ => true)
      (reminderStep (t24 wB0 - 5) (t24 wB0) (fun _ => true) wB0).1).2 ∧
    Event.remind1 wB0.id ∉ (reminderStep (t1h wB0 - 5) (t1h wB0) (fun _ => true)
      (reminderStep (t1h wB0 - 5) (t1h wB0) (fun _ => true) wB0).1).2 ∧
    Event.autoCancel wB0.id ∉ (reminderStep (tAuto wB0 - 5) (tAuto wB0) (fun _ => true)
      (reminderStep (tAuto wB0 - 5) (tAuto wB0) (fun _ => true) wB0).1).2 :=
  ⟨(C1_window_iff (t24 wB0 - 5) (t24 wB0) (fun _ => true) wB0).1,
    (C1_window_iff (t24 wB0 - 5) (t24 wB0) (fun _ => true) wB0).2.2.2.1 (by decide) rfl,
    (C1_window_iff (t1h wB0 - 5) (t1h wB0) (fun _ => true) wB0).2.2.2.2.1 (by decide)
      (by decide) rfl,
    (C1_window_iff (tAuto wB0 - 5) (tAuto wB0) (fun _ => true) wB0).2.2.2.2.2 (by decide)
      (by decide) (by decide)⟩

/-- Witness for C4's amended statement: a concrete pending booking whose
auto-cancel instant is crossed (and no other branch fires) is cancelled
and notified; and a concrete already-cancelled row is frozen with no
events across passes. -/
theorem C4_autocancel_amended_witness :
    ((∃ r ∈ (tickPass (tAuto wB0 - 5) (tAuto wB0) (fun _ => true) [wB0]).1,
        r.id = wB0.id ∧ r.confirmed = -1) ∧
      Event.autoCancel wB0.id ∈ (tickPass (tAuto wB0 - 5) (tAuto wB0) (fun _ => true) [wB0]).2) ∧
    (rowState (fun n => n) (fun _ _ => true) [wNeg] wNeg 1 = wNeg ∧
      ∀ e ∈ runEvents (fun n => n) (fun _ _ => true) [wNeg] 1, e.bid ≠ wNeg.id) :=
  ⟨C4_autocancel_amended.1 [wB0] (tAuto wB0 - 5) (tAuto wB0) (fun _ => true) (by decide)
      wB0 (by decide) (by decide) (by decide) (by decide) (by decide) (by decide) (by decide),
    C4_autocancel_amended.2 (fun n => n) (fun _ _ => true) [wNeg] (by decide)
      wNeg (by decide) (by decide) 1⟩

theorem confRow_date (cids : List Nat) (c : Booking) : (confRow cids c).date = c.date := by
  unfold confRow
  split_ifs <;> rfl

theorem confRow_timeFrom (cids : List Nat) (c : Booking) :
    (confRow cids c).timeFrom = c.timeFrom := by
  unfold confRow
  split_ifs <;> rfl

theorem confRow_flags (cids : List Nat) (c : Booking) :
    (confRow cids c).notified24h = c.notified24h ∧ (confRow cids c).notified1h = c.notified1h := by
  unfold confRow
  split_ifs <;> exact ⟨rfl, rfl⟩

theorem reminderStep_date (T0 T1 : Int) (ok : Nat → Bool) (c : Booking) :
    (reminderStep T0 T1 ok c).1.date = c.date := by
  unfold reminderStep
  split_ifs <;> rfl

theorem reminderStep_timeFrom (T0 T1 : Int) (ok : Nat → Bool) (c : Booking) :
    (reminderStep T0 T1 ok c).1.timeFrom = c.timeFrom := by
  unfold reminderStep
  split_ifs <;> rfl

theorem sweepStep_date (now : Int) (c : Booking) : (sweepStep now c).1.date = c.date := by
  unfold sweepStep
  split_ifs <;> rfl

theorem sweepStep_timeFrom (now : Int) (c : Booking) :
    (sweepStep now c).1.timeFrom = c.timeFrom := by
  unfold sweepStep
  split_ifs <;> rfl

theorem passRow_date (cids : List Nat) (T0 T1 : Int) (ok : Nat → Bool) (c : Booking) :
    (passRow cids T0 T1 ok c).date = c.date := by
  unfold passRow
  rw [sweepStep_date, reminderStep_date, confRow_date]

theorem passRow_timeFrom (cids : List Nat) (T0 T1 : Int) (ok : Nat → Bool) (c : Booking) :
    (passRow cids T0 T1 ok c).timeFrom = c.timeFrom := by
  unfold passRow
  rw [sweepStep_timeFrom, reminderStep_timeFrom, confRow_timeFrom]

theorem rowState_t24 (ticks : Nat → Int) (oks : Nat → Nat → Bool) (db : List Booking)
    (b : Booking) (n : Nat) : t24 (rowState ticks oks db b n) = t24 b := by
  induction n with
  | zero => rfl
  | succ n ih =>
    show t24 (passRow _ _ _ _ (rowState ticks oks db b n)) = t24 b
    unfold t24 startInstant
    rw [passRow_date, passRow_timeFrom]
    exact ih

theorem rowState_t1h (ticks : Nat → Int) (oks : Nat → Nat → Bool) (db : List Booking)
    (b : Booking) (n : Nat) : t1h (rowState ticks oks db b n) = t1h b := by
  induction n with
  | zero => rfl
  | succ n ih =>
    show t1h (passRow _ _ _ _ (rowState ticks oks db b n)) = t1h b
    unfold t1h startInstant
    rw [passRow_date, passRow_timeFrom]
    exact ih

theorem confRow_t24 (cids : List Nat) (c : Booking) : t24 (confRow cids c) = t24 c := by
  unfold t24 startInstant
  rw [confRow_date, confRow_timeFrom]

theorem confRow_t1h (cids : List Nat) (c : Booking) : t1h (confRow cids c) = t1h c := by
  unfold t1h startInstant
  rw [confRow_date, confRow_timeFrom]

theorem reminderStep_kinds (T0 T1 : Int) (ok : Nat → Bool) (c : Booking) (e : Event)
    (he : e ∈ (reminderStep T0 T1 ok c).2) :
    e = Event.remind24 c.id ∨ e = Event.remind1 c.id ∨ e = Event.autoCancel c.id := by
  by_cases h24 : cond24 T0 T1 c
  · rw [reminderStep_of_cond24 _ _ _ _ h24] at he
    exact Or.inl (List.mem_singleton.1 he)
  · by_cases h1 : cond1h T0 T1 c
    · rw [reminderStep_of_cond1h _ _ _ _ h24 h1] at he
      exact Or.inr (Or.inl (List.mem_singleton.1 he))
    · by_cases ha : condAuto T0 T1 c
      · rw [reminderStep_of_condAuto _ _ _ _ h24 h1 ha] at he
        exact Or.inr (Or.inr (List.mem_singleton.1 he))
      · rw [reminderStep_of_none _ _ _ _ h24 h1 ha] at he
        cases he

theorem sweepStep_mem (now : Int) (c : Booking) (e : Event)
    (he : e ∈ (sweepStep now c).2) :
    e = Event.passedAdmin c.id ∧ c.confirmed = 1 ∧ endInstant c ≤ now := by
  unfold sweepStep at he
  by_cases hc : c.confirmed = 1 ∧ endInstant c ≤ now
  · rw [if_pos hc] at he
    exact ⟨List.mem_singleton.1 he, hc⟩
  · rw [if_neg hc] at he
    cases he

theorem remind24_mem_step_iff (T0 T1 : Int) (ok : Nat → Bool) (c : Booking) (i : Nat) :
    Event.remind24 i ∈ (reminderStep T0 T1 ok c).2 ↔ i = c.id ∧ cond24 T0 T1 c := by
  constructor
  · intro he
    rcases reminderStep_kinds _ _ _ _ _ he with hk | hk | hk
    · refine ⟨by injection hk, ?_⟩
      by_contra h24
      by_cases h1 : cond1h T0 T1 c
      · rw [reminderStep_of_cond1h _ _ _ _ h24 h1] at he
        simp at he
      · by_cases ha : condAuto T0 T1 c
        · rw [reminderStep_of_condAuto _ _ _ _ h24 h1 ha] at he
          simp at he
        · rw [reminderStep_of_none _ _ _ _ h24 h1 ha] at he
          cases he
    · cases hk
    · cases hk
  · rintro ⟨rfl, h24⟩
    rw [reminderStep_of_cond24 _ _ _ _ h24]
    exact List.mem_singleton.2 rfl

theorem remind1_mem_step_iff (T0 T1 : Int) (ok : Nat → Bool) (c : Booking) (i : Nat) :
    Event.remind1 i ∈ (reminderStep T0 T1 ok c).2 ↔
      i = c.id ∧ ¬ cond24 T0 T1 c ∧ cond1h T0 T1 c := by
  constructor
  · intro he
    rcases reminderStep_kinds _ _ _ _ _ he with hk | hk | hk
    · cases hk
    · refine ⟨by injection hk, ?_⟩
      by_cases h24 : cond24 T0 T1 c
      · rw [reminderStep_of_cond24 _ _ _ _ h24] at he
        simp at he
      · refine ⟨h24, ?_⟩
        by_contra h1
        by_cases ha : condAuto T0 T1 c
        · rw [reminderStep_of_condAuto _ _ _ _ h24 h1 ha] at he
          simp at he
        · rw [reminderStep_of_none _ _ _ _ h24 h1 ha] at he
          cases he
    · cases hk
  · rintro ⟨rfl, h24, h1⟩
    rw [reminderStep_of_cond1h _ _ _ _ h24 h1]
    exact List.mem_singleton.2 rfl

theorem remind24_mem_tickPass (T0 T1 : Int) (ok : Nat → Bool) (db : List Booking) (i : Nat) :
    Event.remind24 i ∈ (tickPass T0 T1 ok db).2 ↔
      ∃ x ∈ db, i = x.id ∧ cond24 T0 T1 (confRow (cancelledIds db) x) := by
  rw [mem_tickPass_events]
  constructor
  · rintro (⟨j, hj, he⟩ | ⟨x, hx, he⟩ | ⟨x, hx, he⟩)
    · cases he
    · obtain ⟨hi, hc⟩ := (remind24_mem_step_iff _ _ _ _ _).1 he
      exact ⟨x, hx, by rwa [confRow_id] at hi, hc⟩
    · rcases (sweepStep_mem _ _ _ he).1 with hk
      cases hk
  · rintro ⟨x, hx, hi, hc⟩
    refine Or.inr (Or.inl ⟨x, hx, ?_⟩)
    exact (remind24_mem_step_iff _ _ _ _ _).2 ⟨by rwa [confRow_id], hc⟩

theorem remind1_mem_tickPass (T0 T1 : Int) (ok : Nat → Bool) (db : List Booking) (i : Nat) :
    Event.remind1 i ∈ (tickPass T0 T1 ok db).2 ↔
      ∃ x ∈ db, i = x.id ∧ ¬ cond24 T0 T1 (confRow (cancelledIds db) x) ∧
        cond1h T0 T1 (confRow (cancelledIds db) x) := by
  rw [mem_tickPass_events]
  constructor
  · rintro (⟨j, hj, he⟩ | ⟨x, hx, he⟩ | ⟨x, hx, he⟩)
    · cases he
    · obtain ⟨hi, hc⟩ := (remind1_mem_step_iff _ _ _ _ _).1 he
      exact ⟨x, hx, by rwa [confRow_id] at hi, hc⟩
    · rcases (sweepStep_mem _ _ _ he).1 with hk
      cases hk
  · rintro ⟨x, hx, hi, hc⟩
    refine Or.inr (Or.inl ⟨x, hx, ?_⟩)
    exact (remind1_mem_step_iff _ _ _ _ _).2 ⟨by rwa [confRow_id], hc⟩

theorem passedAdmin_mem_tickPass (T0 T1 : Int) (ok : Nat → Bool) (db : List Booking) (i : Nat) :
    Event.passedAdmin i ∈ (tickPass T0 T1 ok db).2 ↔
      ∃ x ∈ db, i = x.id ∧
        (reminderStep T0 T1 ok (confRow (cancelledIds db) x)).1.confirmed = 1 ∧
        endInstant (reminderStep T0 T1 ok (confRow (cancelledIds db) x)).1 ≤ T1 := by
  rw [mem_tickPass_events]
  constructor
  · rintro (⟨j, hj, he⟩ | ⟨x, hx, he⟩ | ⟨x, hx, he⟩)
    · cases he
    · rcases reminderStep_kinds _ _ _ _ _ he with hk | hk | hk <;> cases hk
    · obtain ⟨hk, hc, hend⟩ := sweepStep_mem _ _ _ he
      refine ⟨x, hx, ?_, hc, hend⟩
      injection hk with hk'
      rw [hk', reminderStep_id, confRow_id]
  · rintro ⟨x, hx, hi, hc, hend⟩
    refine Or.inr (Or.inr ⟨x, hx, ?_⟩)
    unfold sweepStep
    rw [if_pos ⟨hc, hend⟩]
    subst hi
    rw [reminderStep_id, confRow_id]
    exact List.mem_singleton.2 rfl

theorem rowState_unique (ticks : Nat → Int) (oks : Nat → Nat → Bool) (db : List Booking)
    (hn : (db.map (fun c => c.id)).Nodup) (b : Booking) (hb : b ∈ db) (n : Nat)
    (x : Booking) (hx : x ∈ runDb ticks oks db n) (hid : x.id = b.id) :
    x = rowState ticks oks db b n := by
  rw [runDb_map] at hx
  obtain ⟨y, hy, rfl⟩ := List.mem_map.1 hx
  have hyb : y = b := by
    apply eq_of_mem_nodup_ids db hn y b hy hb
    rw [← rowState_id ticks oks db y n]
    exact hid
  rw [hyb]

theorem reminderStep_flag24_mono (T0 T1 : Int) (ok : Nat → Bool) (c : Booking)
    (hc : c.notified24h = true) : (reminderStep T0 T1 ok c).1.notified24h = true := by
  unfold reminderStep
  split_ifs <;> simp_all

theorem reminderStep_flag1_mono (T0 T1 : Int) (ok : Nat → Bool) (c : Booking)
    (hc : c.notified1h = true) : (reminderStep T0 T1 ok c).1.notified1h = true := by
  unfold reminderStep
  split_ifs <;> simp_all

theorem sweepStep_flags (now : Int) (c : Booking) :
    (sweepStep now c).1.notified24h = c.notified24h ∧
    (sweepStep now c).1.notified1h = c.notified1h := by
  unfold sweepStep
  split_ifs <;> exact ⟨rfl, rfl⟩

theorem passRow_flag24_mono (cids : List Nat) (T0 T1 : Int) (ok : Nat → Bool) (c : Booking)
    (hc : c.notified24h = true) : (passRow cids T0 T1 ok c).notified24h = true := by
  unfold passRow
  rw [(sweepStep_flags _ _).1]
  apply reminderStep_flag24_mono
  rw [(confRow_flags _ _).1]
  exact hc

theorem passRow_flag1_mono (cids : List Nat) (T0 T1 : Int) (ok : Nat → Bool) (c : Booking)
    (hc : c.notified1h = true) : (passRow cids T0 T1 ok c).notified1h = true := by
  unfold passRow
  rw [(sweepStep_flags _ _).2]
  apply reminderStep_flag1_mono
  rw [(confRow_flags _ _).2]
  exact hc

theorem passRow_flag24_change (cids : List Nat) (T0 T1 : Int) (ok : Nat → Bool) (c : Booking)
    (h0 : c.notified24h = false) (h1 : (passRow cids T0 T1 ok c).notified24h = true) :
    ok c.id = true ∧ cond24 T0 T1 (confRow cids c) := by
  unfold passRow at h1
  rw [(sweepStep_flags _ _).1] at h1
  by_cases h24 : cond24 T0 T1 (confRow cids c)
  · by_cases hok : ok c.id = true
    · exact ⟨hok, h24⟩
    · rw [reminderStep_of_cond24 _ _ _ _ h24] at h1
      rw [confRow_id] at h1
      rw [if_neg hok] at h1
      rw [(confRow_flags _ _).1] at h1
      rw [h0] at h1
      cases h1
  · exfalso
    by_cases hc1 : cond1h T0 T1 (confRow cids c)
    · rw [reminderStep_of_cond1h _ _ _ _ h24 hc1] at h1
      by_cases hok : ok (confRow cids c).id = true
      · rw [if_pos hok] at h1
        have : ({ confRow cids c with notified1h := true } : Booking).notified24h =
            (confRow cids c).notified24h := rfl
        rw [this, (confRow_flags _ _).1, h0] at h1
        cases h1
      · rw [if_neg hok, (confRow_flags _ _).1, h0] at h1
        cases h1
    · by_cases ha : condAuto T0 T1 (confRow cids c)
      · rw [reminderStep_of_condAuto _ _ _ _ h24 hc1 ha] at h1
        have : ({ confRow cids c with confirmed := -1 } : Booking).notified24h =
            (confRow cids c).notified24h := rfl
        rw [this, (confRow_flags _ _).1, h0] at h1
        cases h1
      · rw [reminderStep_of_none _ _ _ _ h24 hc1 ha, (confRow_flags _ _).1, h0] at h1
        cases h1

theorem passRow_flag1_change (cids : List Nat) (T0 T1 : Int) (ok : Nat → Bool) (c : Booking)
    (h0 : c.notified1h = false) (h1 : (passRow cids T0 T1 ok c).notified1h = true) :
    ok c.id = true ∧ ¬ cond24 T0 T1 (confRow cids c) ∧ cond1h T0 T1 (confRow cids c) := by
  unfold passRow at h1
  rw [(sweepStep_flags _ _).2] at h1
  by_cases h24 : cond24 T0 T1 (confRow cids c)
  · exfalso
    rw [reminderStep_of_cond24 _ _ _ _ h24] at h1
    by_cases hok : ok (confRow cids c).id = true
    · rw [if_pos hok] at h1
      have : ({ confRow cids c with notified24h := true } : Booking).notified1h =
          (confRow cids c).notified1h := rfl
      rw [this, (confRow_flags _ _).2, h0] at h1
      cases h1
    · rw [if_neg hok, (confRow_flags _ _).2, h0] at h1
      cases h1
  · by_cases hc1 : cond1h T0 T1 (confRow cids c)
    · by_cases hok : ok c.id = true
      · exact ⟨hok, h24, hc1⟩
      · exfalso
        rw [reminderStep_of_cond1h _ _ _ _ h24 hc1, confRow_id, if_neg hok,
          (confRow_flags _ _).2, h0] at h1
        cases h1
    · exfalso
      by_cases ha : condAuto T0 T1 (confRow cids c)
      · rw [reminderStep_of_condAuto _ _ _ _ h24 hc1 ha] at h1
        have : ({ confRow cids c with confirmed := -1 } : Booking).notified1h =
            (confRow cids c).notified1h := rfl
        rw [this, (confRow_flags _ _).2, h0] at h1
        cases h1
      · rw [reminderStep_of_none _ _ _ _ h24 hc1 ha, (confRow_flags _ _).2, h0] at h1
        cases h1

theorem countP_singleton_le (p : Event → Bool) (e : Event) :
    ([e] : List Event).countP p ≤ 1 := by
  simp only [List.countP_cons, List.countP_nil]
  by_cases hp : p e <;> simp [hp]

theorem countP_step_le_one (T0 T1 : Int) (ok : Nat → Bool) (c : Booking) (p : Event → Bool) :
    (reminderStep T0 T1 ok c).2.countP p ≤ 1 := by
  by_cases h24 : cond24 T0 T1 c
  · rw [reminderStep_of_cond24 _ _ _ _ h24]
    exact countP_singleton_le _ _
  · by_cases h1 : cond1h T0 T1 c
    · rw [reminderStep_of_cond1h _ _ _ _ h24 h1]
      exact countP_singleton_le _ _
    · by_cases ha : condAuto T0 T1 c
      · rw [reminderStep_of_condAuto _ _ _ _ h24 h1 ha]
        exact countP_singleton_le _ _
      · rw [reminderStep_of_none _ _ _ _ h24 h1 ha]
        simp

theorem countP_eq_zero_of_not_mem_kind (l : List Event) (p : Event → Bool)
    (h : ∀ e ∈ l, p e = false) : l.countP p = 0 := by
  rw [List.countP_eq_zero]
  intro e he
  simp [h e he]

theorem countP_step_remind24_ne (T0 T1 : Int) (ok : Nat → Bool) (c : Booking) (i : Nat)
    (hne : c.id ≠ i) :
    (reminderStep T0 T1 ok c).2.countP (fun e => e == Event.remind24 i) = 0 := by
  apply countP_eq_zero_of_not_mem_kind
  intro e he
  rcases reminderStep_kinds _ _ _ _ _ he with rfl | rfl | rfl <;> simp
  intro h
  exact absurd h hne

theorem countP_step_remind1_ne (T0 T1 : Int) (ok : Nat → Bool) (c : Booking) (i : Nat)
    (hne : c.id ≠ i) :
    (reminderStep T0 T1 ok c).2.countP (fun e => e == Event.remind1 i) = 0 := by
  apply countP_eq_zero_of_not_mem_kind
  intro e he
  rcases reminderStep_kinds _ _ _ _ _ he with rfl | rfl | rfl <;> simp
  intro h
  exact absurd h hne

theorem countP_reminderPhase_le (T0 T1 : Int) (ok : Nat → Bool) (l : List Booking)
    (i : Nat) (p : Event → Bool)
    (hle : ∀ c : Booking, (reminderStep T0 T1 ok c).2.countP p ≤ 1)
    (hne : ∀ c : Booking, c.id ≠ i → (reminderStep T0 T1 ok c).2.countP p = 0) :
    (reminderPhase T0 T1 ok l).2.countP p ≤ (l.map (fun c => c.id)).count i := by
  induction l with
  | nil => simp [reminderPhase]
  | cons c rest ih =>
    show ((reminderStep T0 T1 ok c).2 ++ (reminderPhase T0 T1 ok rest).2).countP p ≤ _
    rw [List.countP_append, List.map_cons, List.count_cons]
    by_cases hc : c.id = i
    · have h1 := hle c
      have hbe : (c.id == i) = true := by
        simp [hc]
      rw [hbe]
      simp only [if_pos]
      omega
    · have h1 := hne c hc
      have hbe : (c.id == i) = false := by
        simp [hc]
      rw [hbe]
      simp only [Bool.false_eq_true, if_false]
      omega

theorem countP_tickPass_remind (T0 T1 : Int) (ok : Nat → Bool) (db : List Booking)
    (hn : (db.map (fun c => c.id)).Nodup) (i : Nat) (p : Event → Bool)
    (hconf : ∀ j : Nat, p (Event.conflictCancel j) = false)
    (hpa : ∀ j : Nat, p (Event.passedAdmin j) = false)
    (hle : ∀ c : Booking, (reminderStep T0 T1 ok c).2.countP p ≤ 1)
    (hne : ∀ c : Booking, c.id ≠ i → (reminderStep T0 T1 ok c).2.countP p = 0) :
    (tickPass T0 T1 ok db).2.countP p ≤ 1 := by
  show ((((cancelledIds db).map Event.conflictCancel) ++
    (reminderPhase T0 T1 ok (db.map (confRow (cancelledIds db)))).2) ++
      (sweepPhase T1 (reminderPhase T0 T1 ok (db.map (confRow (cancelledIds db)))).1).2).countP p ≤ 1
  rw [List.countP_append, List.countP_append]
  have hc0 : ((cancelledIds db).map Event.conflictCancel).countP p = 0 := by
    apply countP_eq_zero_of_not_mem_kind
    intro e he
    obtain ⟨j, hj, rfl⟩ := List.mem_map.1 he
    exact hconf j
  have hs0 : ((sweepPhase T1 (reminderPhase T0 T1 ok
      (db.map (confRow (cancelledIds db)))).1).2).countP p = 0 := by
    apply countP_eq_zero_of_not_mem_kind
    intro e he
    obtain ⟨c, hc, hec⟩ := (mem_sweepPhase_events _ _ _).1 he
    rw [(sweepStep_mem _ _ _ hec).1]
    exact hpa _
  have hr : ((reminderPhase T0 T1 ok (db.map (confRow (cancelledIds db)))).2).countP p ≤
      ((db.map (confRow (cancelledIds db))).map (fun c => c.id)).count i :=
    countP_reminderPhase_le _ _ _ _ _ _ hle hne
  have hids : (db.map (confRow (cancelledIds db))).map (fun c => c.id) =
      db.map (fun c => c.id) := by
    rw [List.map_map]
    apply List.map_congr_left
    intro c hc
    exact confRow_id _ c
  rw [hids] at hr
  have hcount : (db.map (fun c => c.id)).count i ≤ 1 :=
    List.nodup_iff_count_le_one.1 hn i
  omega

theorem rowState_mem_runDb (ticks : Nat → Int) (oks : Nat → Nat → Bool) (db : List Booking)
    (b : Booking) (hb : b ∈ db) (n : Nat) :
    rowState ticks oks db b n ∈ runDb ticks oks db n := by
  rw [runDb_map]
  have hmm : rowState ticks oks db b n ∈ List.map (fun x => rowState ticks oks db x n) db :=
    List.mem_map_of_mem _ hb
  exact hmm

theorem remind24_run_window (ticks : Nat → Int) (oks : Nat → Nat → Bool) (db : List Booking)
    (hn : (db.map (fun c => c.id)).Nodup) (b : Booking) (hb : b ∈ db) (n : Nat)
    (hmem : Event.remind24 b.id ∈ runEvents ticks oks db n) :
    ticks n < t24 b ∧ t24 b ≤ ticks (n + 1) := by
  obtain ⟨x, hx, hid, hc⟩ :=
    (remind24_mem_tickPass (ticks n) (ticks (n + 1)) (oks n) (runDb ticks oks db n) b.id).1 hmem
  have hnr : ((runDb ticks oks db n).map (fun c => c.id)).Nodup := by
    rw [runDb_ids]
    exact hn
  have hxe : x = rowState ticks oks db b n := rowState_unique ticks oks db hn b hb n x hx hid.symm
  have hw := hc.2.2
  rw [confRow_t24, hxe, rowState_t24] at hw
  exact hw

theorem remind1_run_window (ticks : Nat → Int) (oks : Nat → Nat → Bool) (db : List Booking)
    (hn : (db.map (fun c => c.id)).Nodup) (b : Booking) (hb : b ∈ db) (n : Nat)
    (hmem : Event.remind1 b.id ∈ runEvents ticks oks db n) :
    ticks n < t1h b ∧ t1h b ≤ ticks (n + 1) := by
  obtain ⟨x, hx, hid, hc24, hc⟩ :=
    (remind1_mem_tickPass (ticks n) (ticks (n + 1)) (oks n) (runDb ticks oks db n) b.id).1 hmem
  have hxe : x = rowState ticks oks db b n := rowState_unique ticks oks db hn b hb n x hx hid.symm
  have hw := hc.2.2
  rw [confRow_t1h, hxe, rowState_t1h] at hw
  exact hw

/-- C5: across any sequence of passes with monotonically advancing
`(last_tick, now)` windows, the 24h reminder and the 1h prompt for a
given booking each fire at most once (never in two different passes, and
at most once within a pass); the one-shot flags only ever change from
false to true; and a flag becomes true in a pass only when the branch
fired there with a successful send. -/
theorem C5_reminders_fire_once (ticks : Nat → Int) (oks : Nat → Nat → Bool) (db : List Booking)
    (hmono : ∀ i j : Nat, i ≤ j → ticks i ≤ ticks j)
    (hn : (db.map (fun c => c.id)).Nodup) (b : Booking) (hb : b ∈ db) :
    (∀ i j : Nat, i < j → ¬ (Event.remind24 b.id ∈ runEvents ticks oks db i ∧
        Event.remind24 b.id ∈ runEvents ticks oks db j)) ∧
    (∀ i j : Nat, i < j → ¬ (Event.remind1 b.id ∈ runEvents ticks oks db i ∧
        Event.remind1 b.id ∈ runEvents ticks oks db j)) ∧
    (∀ n : Nat, (runEvents ticks oks db n).countP (fun e => e == Event.remind24 b.id) ≤ 1) ∧
    (∀ n : Nat, (runEvents ticks oks db n).countP (fun e => e == Event.remind1 b.id) ≤ 1) ∧
    (∀ i j : Nat, i ≤ j → (rowState ticks oks db b i).notified24h = true →
        (rowState ticks oks db b j).notified24h = true) ∧
    (∀ i j : Nat, i ≤ j → (rowState ticks oks db b i).notified1h = true →
        (rowState ticks oks db b j).notified1h = true) ∧
    (∀ n : Nat, (rowState ticks oks db b n).notified24h = false →
        (rowState ticks oks db b (n + 1)).notified24h = true →
        oks n b.id = true ∧ Event.remind24 b.id ∈ runEvents ticks oks db n) ∧
    (∀ n : Nat, (rowState ticks oks db b n).notified1h = false →
        (rowState ticks oks db b (n + 1)).notified1h = true →
        oks n b.id = true ∧ Event.remind1 b.id ∈ runEvents ticks oks db n) := by
  refine ⟨?_, ?_, ?_, ?_, ?_, ?_, ?_, ?_⟩
  · rintro i j hij ⟨h1, h2⟩
    obtain ⟨hw1, hw2⟩ := remind24_run_window ticks oks db hn b hb i h1
    obtain ⟨hw3, hw4⟩ := remind24_run_window ticks oks db hn b hb j h2
    have := hmono (i + 1) j (by omega)
    omega
  · rintro i j hij ⟨h1, h2⟩
    obtain ⟨hw1, hw2⟩ := remind1_run_window ticks oks db hn b hb i h1
    obtain ⟨hw3, hw4⟩ := remind1_run_window ticks oks db hn b hb j h2
    have := hmono (i + 1) j (by omega)
    omega
  · intro n
    apply countP_tickPass_remind (ticks n) (ticks (n + 1)) (oks n) (runDb ticks oks db n)
      (by rw [runDb_ids]; exact hn) b.id
    · intro j
      simp
    · intro j
      simp
    · intro c
      exact countP_step_le_one _ _ _ _ _
    · intro c hc
      exact countP_step_remind24_ne _ _ _ _ _ hc
  · intro n
    apply countP_tickPass_remind (ticks n) (ticks (n + 1)) (oks n) (runDb ticks oks db n)
      (by rw [runDb_ids]; exact hn) b.id
    · intro j
      simp
    · intro j
      simp
    · intro c
      exact countP_step_le_one _ _ _ _ _
    · intro c hc
      exact countP_step_remind1_ne _ _ _ _ _ hc
  · intro i j hij hf
    induction j, hij using Nat.le_induction with
    | base => exact hf
    | succ j hij ih =>
      exact passRow_flag24_mono _ _ _ _ _ ih
  · intro i j hij hf
    induction j, hij using Nat.le_induction with
    | base => exact hf
    | succ j hij ih =>
      exact passRow_flag1_mono _ _ _ _ _ ih
  · intro n h0 h1
    obtain ⟨hok, hc⟩ := passRow_flag24_change (cancelledIds (runDb ticks oks db n))
      (ticks n) (ticks (n + 1)) (oks n) (rowState ticks oks db b n) h0 h1
    rw [rowState_id] at hok
    refine ⟨hok, ?_⟩
    exact (remind24_mem_tickPass (ticks n) (ticks (n + 1)) (oks n) (runDb ticks oks db n)
      b.id).2 ⟨rowState ticks oks db b n, rowState_mem_runDb ticks oks db b hb n,
        (rowState_id ticks oks db b n).symm, hc⟩
  · intro n h0 h1
    obtain ⟨hok, hc24, hc⟩ := passRow_flag1_change (cancelledIds (runDb ticks oks db n))
      (ticks n) (ticks (n + 1)) (oks n) (rowState ticks oks db b n) h0 h1
    rw [rowState_id] at hok
    refine ⟨hok, ?_⟩
    exact (remind1_mem_tickPass (ticks n) (ticks (n + 1)) (oks n) (runDb ticks oks db n)
      b.id).2 ⟨rowState ticks oks db b n, rowState_mem_runDb ticks oks db b hb n,
        (rowState_id ticks oks db b n).symm, hc24, hc⟩

theorem confRow_confirmed_cases (cids : List Nat) (c : Booking) :
    (confRow cids c).confirmed = c.confirmed ∨ (confRow cids c).confirmed = -1 := by
  unfold confRow
  split_ifs
  · exact Or.inr rfl
  · exact Or.inl rfl

theorem reminderStep_confirmed_cases (T0 T1 : Int) (ok : Nat → Bool) (c : Booking) :
    (reminderStep T0 T1 ok c).1.confirmed = c.confirmed ∨
    (reminderStep T0 T1 ok c).1.confirmed = -1 := by
  unfold reminderStep
  split_ifs <;> first | exact Or.inl rfl | exact Or.inr rfl

theorem remRow_ne_one (cids : List Nat) (T0 T1 : Int) (ok : Nat → Bool) (c : Booking)
    (hc : c.confirmed ≠ 1) :
    (reminderStep T0 T1 ok (confRow cids c)).1.confirmed ≠ 1 := by
  rcases reminderStep_confirmed_cases T0 T1 ok (confRow cids c) with h | h <;> rw [h]
  · rcases confRow_confirmed_cases cids c with h' | h' <;> rw [h']
    · exact hc
    · omega
  · omega

theorem passRow_ne_one (cids : List Nat) (T0 T1 : Int) (ok : Nat → Bool) (c : Booking)
    (hc : c.confirmed ≠ 1) : (passRow cids T0 T1 ok c).confirmed ≠ 1 := by
  unfold passRow
  rw [sweepStep_noop _ _ (remRow_ne_one cids T0 T1 ok c hc)]
  exact remRow_ne_one cids T0 T1 ok c hc

/-- C7: every booking with `confirmed = 1` whose end instant is at or
before the current tick is transitioned to `confirmed = 3` by the sweep
with a one-time admin notification, and across any sequence of passes
this notification is never emitted twice for the same booking, because
the `1 -> 3` transition removes the row from the `confirmed = 1` query
and no later phase ever sets `confirmed` back to 1. -/
theorem C7_completion_sweep :
    (∀ (db : List Booking) (now : Int), ∀ b ∈ db, b.confirmed = 1 → endInstant b ≤ now →
      (sweepPhase now db).1 = db.map (fun c => (sweepStep now c).1) ∧
      (sweepStep now b).1.confirmed = 3 ∧
      Event.passedAdmin b.id ∈ (sweepPhase now db).2) ∧
    (∀ (ticks : Nat → Int) (oks : Nat → Nat → Bool) (db : List Booking),
      (db.map (fun c => c.id)).Nodup → ∀ b ∈ db, ∀ i j : Nat, i < j →
      ¬ (Event.passedAdmin b.id ∈ runEvents ticks oks db i ∧
         Event.passedAdmin b.id ∈ runEvents ticks oks db j)) := by
  constructor
  · intro db now b hb hc hend
    refine ⟨sweepPhase_fst now db, ?_, ?_⟩
    · unfold sweepStep
      rw [if_pos ⟨hc, hend⟩]
    · rw [mem_sweepPhase_events]
      refine ⟨b, hb, ?_⟩
      unfold sweepStep
      rw [if_pos ⟨hc, hend⟩]
      exact List.mem_singleton.2 rfl
  · rintro ticks oks db hn b hb i j hij ⟨h1, h2⟩
    obtain ⟨x, hx, hid, hc1, hend⟩ :=
      (passedAdmin_mem_tickPass (ticks i) (ticks (i + 1)) (oks i)
        (runDb ticks oks db i) b.id).1 h1
    have hxe : x = rowState ticks oks db b i :=
      rowState_unique ticks oks db hn b hb i x hx hid.symm
    rw [hxe] at hc1 hend
    have hnext : (rowState ticks oks db b (i + 1)).confirmed = 3 := by
      show (passRow (cancelledIds (runDb ticks oks db i)) (ticks i) (ticks (i + 1)) (oks i)
        (rowState ticks oks db b i)).confirmed = 3
      unfold passRow sweepStep
      rw [if_pos ⟨hc1, hend⟩]
    have hlater : ∀ m : Nat, i + 1 ≤ m → (rowState ticks oks db b m).confirmed ≠ 1 := by
      intro m hm
      induction m, hm using Nat.le_induction with
      | base =>
        rw [hnext]
        omega
      | succ m hm ih =>
        exact passRow_ne_one _ _ _ _ _ ih
    obtain ⟨y, hy, hidy, hcy, hendy⟩ :=
      (passedAdmin_mem_tickPass (ticks j) (ticks (j + 1)) (oks j)
        (runDb ticks oks db j) b.id).1 h2
    have hye : y = rowState ticks oks db b j :=
      rowState_unique ticks oks db hn b hb j y hy hidy.symm
    rw [hye] at hcy
    exact remRow_ne_one _ _ _ _ _ (hlater j (by omega)) hcy

/-- Witness for C5 at concrete runs: no double firing across passes 0 and
1, per-pass count bound, flag monotonicity on a flagged booking, and the
flag-change forensics on runs whose first window crosses the respective
target. -/
theorem C5_reminders_fire_once_witness :
    (¬ (Event.remind24 wB0.id ∈ runEvents (fun n => (n : Int)) (fun _ _ => true) [wB0] 0 ∧
        Event.remind24 wB0.id ∈ runEvents (fun n => (n : Int)) (fun _ _ => true) [wB0] 1)) ∧
    ((runEvents (fun n => (n : Int)) (fun _ _ => true) [wB0] 0).countP
        (fun e => e == Event.remind24 wB0.id) ≤ 1) ∧
    ((rowState (fun n => (n : Int)) (fun _ _ => true) [wFlag] wFlag 2).notified24h = true) ∧
    (oks24Run 0 wB0.id = true ∧
      Event.remind24 wB0.id ∈ runEvents ticks24Run oks24Run [wB0] 0) ∧
    (oks24Run 0 w24set.id = true ∧
      Event.remind1 w24set.id ∈ runEvents ticks1Run oks24Run [w24set] 0) := by
  refine ⟨?_, ?_, ?_, ?_, ?_⟩
  · exact (C5_reminders_fire_once (fun n => (n : Int)) (fun _ _ => true) [wB0]
      (fun i j h => by show (i : Int) ≤ (j : Int); omega) (by decide) wB0 (by decide)).1 0 1 (by omega)
  · exact (C5_reminders_fire_once (fun n => (n : Int)) (fun _ _ => true) [wB0]
      (fun i j h => by show (i : Int) ≤ (j : Int); omega) (by decide) wB0 (by decide)).2.2.1 0
  · exact (C5_reminders_fire_once (fun n => (n : Int)) (fun _ _ => true) [wFlag]
      (fun i j h => by show (i : Int) ≤ (j : Int); omega) (by decide) wFlag (by decide)).2.2.2.2.1 0 2 (by omega) (by decide)
  · exact (C5_reminders_fire_once ticks24Run oks24Run [wB0]
      (fun i j h => by show t24 wB0 - 1 + (i : Int) ≤ t24 wB0 - 1 + (j : Int); omega) (by decide) wB0 (by decide)).2.2.2.2.2.2.1 0
      (by decide) (by decide)
  · exact (C5_reminders_fire_once ticks1Run oks24Run [w24set]
      (fun i j h => by show t1h w24set - 1 + (i : Int) ≤ t1h w24set - 1 + (j : Int); omega) (by decide) w24set
      (by decide)).2.2.2.2.2.2.2 0 (by decide) (by decide)

/-- Witness for C7: a concrete confirmed booking whose slot has ended is
transitioned to 3 with an admin notification by the sweep, and across a
concrete two-pass run the notification is not emitted twice. -/
theorem C7_completion_sweep_witness :
    ((sweepPhase (endInstant wB1) [wB1]).1 =
        [wB1].map (fun c => (sweepStep (endInstant wB1) c).1) ∧
      (sweepStep (endInstant wB1) wB1).1.confirmed = 3 ∧
      Event.passedAdmin wB1.id ∈ (sweepPhase (endInstant wB1) [wB1]).2) ∧
    (¬ (Event.passedAdmin wB1.id ∈ runEvents (fun n => (n : Int)) (fun _ _ => true) [wB1] 0 ∧
        Event.passedAdmin wB1.id ∈ runEvents (fun n => (n : Int)) (fun _ _ => true) [wB1] 1)) :=
  ⟨C7_completion_sweep.1 [wB1] (endInstant wB1) wB1 (by decide) (by decide) (by decide),
    C7_completion_sweep.2 (fun n => (n : Int)) (fun _ _ => true) [wB1] (by decide)
      wB1 (by decide) 0 1 (by omega)⟩
